import Mathlib

/-!
# GRID validator: settlement, result collection, cursor ingestion, phase waits

A shallow embedding of `core/validator/validator.go`, `core/dumper.go`,
`core/types/types.go` and `database/order.go`.

Conventions of the embedding.

* A Go `int64` is an `Int` kept inside `[-2^63, 2^63)`; every `+`, `-`, `*`
  of the source is followed by `wrap64`, the two's-complement reduction.
  Go's `/` and `%` on integers truncate toward zero (`Int.tdiv`, `Int.tmod`)
  and panic on a zero divisor, which is rendered by `Option`.
* A `*big.Int` is an unbounded `Int`.  `big.Int.Div` is Euclidean division,
  which is `/` on `Int`.
* A `time.Time` that the code only reads through `Unix()` is represented by
  that number of seconds.
* A `time.Duration` is an `int64` of nanoseconds.  `Duration.Seconds` returns a
  `float64`; the conversion `int64(d.Seconds())` is computed with the exact
  round-to-nearest-even steps of the `float64` division and addition, on
  integers (`roundF64`, `addNatF64`, `truncF64`).
* Calls that leave the process (database, chain endpoint) are rendered by
  their outcome, supplied as data.
-/

set_option linter.dupNamespace false

namespace Grid

/-! ## Machine integers -/

/-- Two's-complement reduction of an integer to the `int64` range. -/
def wrap64 (x : Int) : Int :=
  (x + 9223372036854775808) % 18446744073709551616 - 9223372036854775808

/-- Membership in the `int64` range. -/
def isInt64 (x : Int) : Prop :=
  -9223372036854775808 ≤ x ∧ x < 9223372036854775808

instance (x : Int) : Decidable (isInt64 x) := by
  unfold isInt64; infer_instance

/-- Go's `a / b` on `int64`: truncated quotient, wrapped (so that
`MinInt64 / -1 = MinInt64`); a zero divisor panics. -/
def div64 (a b : Int) : Option Int :=
  if b = 0 then none else some (wrap64 (Int.tdiv a b))

/-- Go's `a % b` on `int64`: remainder with the sign of the dividend; a zero
divisor panics. -/
def rem64 (a b : Int) : Option Int :=
  if b = 0 then none else some (Int.tmod a b)

/-! ## Settlement (`GRIDValidator.AddPenalty`) -/

/-- Modelled from the spec: the `Profit` row of the `database` package, whose
declaration is not among the sources; the fields are the ones `AddPenalty`,
`HandleRegister` and `HandleWithdraw` use.  `LastTime` and `EndTime` hold the
value of `Unix()`. -/
structure Profit where
  Address : String
  Balance : Int
  Profit : Int
  Penalty : Int
  LastTime : Int
  EndTime : Int
  Nonce : Nat
  deriving DecidableEq, Repr

/-- The reward of one settlement step, lines 163-172 of `validator.go`:
the four-way branch on `v.last`, `LastTime.Unix()` and `EndTime.Unix()`.
The last branch divides two `int64` differences before multiplying. -/
def calcReward (last : Int) (p : Profit) : Option Int :=
  if last ≤ p.LastTime then some 0
  else if last ≥ p.EndTime then some p.Profit
  else if p.LastTime ≥ p.EndTime then some 0
  else
    (div64 (wrap64 (last - p.LastTime)) (wrap64 (p.EndTime - p.LastTime))).map
      (fun q => p.Profit * q)

/-- The penalty of one settlement step, lines 178-182: zero after a proof
that succeeded, otherwise `penalty.Div(remain, 100)`. -/
def calcPenalty (result : Bool) (remain : Int) : Int :=
  if !result then remain / 100 else 0

/-- The row update of one settlement step, lines 175-187, for a given
reward. -/
def applySettlement (last : Int) (result : Bool) (p : Profit) (reward : Int) : Profit :=
  let remain := p.Profit - reward
  let penalty := calcPenalty result remain
  { p with
    LastTime := last
    Balance := p.Balance + reward
    Profit := remain - penalty
    Penalty := p.Penalty + penalty }

/-- One iteration of the loop of `AddPenalty` on the row it loaded: the row
handed to `UpdateProfit`, or `none` when the division panics. -/
def AddPenaltyStep (last : Int) (result : Bool) (p : Profit) : Option Profit :=
  (calcReward last p).map (applySettlement last result p)

/-! ## Result collection (`GRIDValidator.HandleResult`) -/

/-- The key of the result map, `types.NodeID`. -/
structure NodeID where
  Provider : String
  ID : Nat
  deriving DecidableEq, Repr

/-- A proof result as received on `resultChan`, `types.Result`: the embedded
`NodeID` and the `Success` flag. -/
structure Result where
  NodeID : NodeID
  Success : Bool
  deriving DecidableEq, Repr

/-- A Go `map[types.NodeID]bool`: `none` for a key that is absent. -/
abbrev ResultMap := NodeID → Option Bool

/-- The `case result := <-resultChan` arm of the collection loop, lines
143-146: a member key is set to `true`, a non-member result is dropped. -/
def receiveResult (resultMap : ResultMap) (result : Result) : ResultMap :=
  match resultMap result.NodeID with
  | some _ => fun k => if k = result.NodeID then some true else resultMap k
  | none => resultMap

/-- The collection loop of `HandleResult` for the results received before the
quit signal, in the order they were received. -/
def HandleResult (resultMap : ResultMap) (received : List Result) : ResultMap :=
  received.foldl receiveResult resultMap

/-! ## Ingestion cursor (`Dumper.DumpGRID`) -/

/-- The event names the registry can resolve: the three that `DumpGRID`
dispatches, and `Other` for any name that falls to `default`. -/
inductive EventName where
  | Register
  | AddNode
  | CreateOrder
  | Other
  deriving DecidableEq, Repr

/-- One log of a batch with the outcome of every call made for it.
`name` is the lookup `d.eventNameMap[event.Topics[0]]` (`none` when the
signature is unknown), `BlockNumber` is a `uint64`, `handlerErr` says that the
handler returned an error, `txErr` that `TransactionByHash` did, `senderErr`
that `Sender` did. -/
structure Log where
  name : Option EventName
  BlockNumber : Nat
  handlerErr : Bool
  txErr : Bool
  senderErr : Bool
  deriving DecidableEq, Repr

/-- The method `big.Int.Uint64`: the low 64 bits of the absolute value. -/
def bigUint64 (x : Int) : Nat := x.natAbs % 18446744073709551616

/-- Lines 167-169: the cursor after a log that was processed without error.
`int64(event.BlockNumber) + 1` is computed on `int64`. -/
def advance (cursor : Int) (e : Log) : Int :=
  if e.BlockNumber ≥ bigUint64 cursor then wrap64 (wrap64 (e.BlockNumber : Int) + 1)
  else cursor

/-- How the loop over the batch was left. -/
inductive LoopExit where
  | finished
  | returned
  | panicked
  deriving DecidableEq, Repr

/-- The in-memory cursor when the loop is left, the logs whose handler was
called (in order), and how the loop was left. -/
structure LoopResult where
  blockNumber : Int
  handled : List Log
  exit : LoopExit
  deriving DecidableEq, Repr

/-- The loop of `DumpGRID`, lines 124-170.  The outer `err` is nil at the
start of every iteration.  In the `CreateOrder` case `tx, _, err := ...`
declares a new `err` for that case: a failing lookup leaves `tx` nil and
`tx.ChainId()` panics, a failing `Sender` returns from `DumpGRID`, and the
error of `HandleCreateOrder` is assigned to the inner `err`, so the test
`if err != nil` after the switch reads the outer one, still nil. -/
def dumpLoop (cursor : Int) (handled : List Log) : List Log → LoopResult
  | [] => ⟨cursor, handled, .finished⟩
  | e :: rest =>
    match e.name with
    | none => dumpLoop cursor handled rest
    | some .Other => dumpLoop cursor handled rest
    | some .Register =>
      if e.handlerErr then ⟨cursor, handled ++ [e], .finished⟩
      else dumpLoop (advance cursor e) (handled ++ [e]) rest
    | some .AddNode =>
      if e.handlerErr then ⟨cursor, handled ++ [e], .finished⟩
      else dumpLoop (advance cursor e) (handled ++ [e]) rest
    | some .CreateOrder =>
      if e.txErr then ⟨cursor, handled, .panicked⟩
      else if e.senderErr then ⟨cursor, handled, .returned⟩
      else dumpLoop (advance cursor e) (handled ++ [e]) rest

/-- Modelled from the spec: the cursor store behind `database.GetBlockNumber`
and `database.SetBlockNumber`, which are not among the sources; it holds one
`int64`, or nothing while no value was ever written. -/
abbrev CursorStore := Option Int

/-- The dumper's in-memory cursor `blockNumber` (a `*big.Int`) together with
the cursor store it writes through. -/
structure Dumper where
  blockNumber : Int
  stored : CursorStore
  deriving DecidableEq, Repr

/-- The persisted cursor: the value the store holds, 0 while nothing is
stored. -/
def persistedCursor (d : Dumper) : Int := d.stored.getD 0

/-- The cursor part of `NewGRIDDumper`, lines 85-89: the in-memory cursor is
what `GetBlockNumber` read, and 0 after any error of that read (`readErr`, or
nothing stored); the store itself is left as it is. -/
def NewGRIDDumper (stored : CursorStore) (readErr : Bool) : Dumper :=
  { blockNumber := if readErr then 0 else stored.getD 0, stored := stored }

/-- What one call of `DumpGRID` receives from outside: the batch returned by
`FilterLogs` (`none` when dialing or the query failed) and whether
`SetBlockNumber` fails. -/
structure Poll where
  events : Option (List Log)
  setErr : Bool
  deriving DecidableEq, Repr

/-- The state after one call of `DumpGRID`, the logs handled, and how the call
ended. -/
structure PollResult where
  dumper : Dumper
  handled : List Log
  exit : LoopExit
  deriving DecidableEq, Repr

/-- The method `DumpGRID`, lines 106-177.  The cursor is written back after
the loop only, when it is greater than at the start of the call; a return or a
panic inside the loop skips that. -/
def DumpGRID (d : Dumper) (p : Poll) : PollResult :=
  match p.events with
  | none => ⟨d, [], .returned⟩
  | some events =>
    let r := dumpLoop d.blockNumber [] events
    match r.exit with
    | .finished =>
      if r.blockNumber > d.blockNumber ∧ p.setErr = false then
        ⟨{ blockNumber := r.blockNumber, stored := some (wrap64 r.blockNumber) },
          r.handled, .finished⟩
      else ⟨{ d with blockNumber := r.blockNumber }, r.handled, .finished⟩
    | .returned => ⟨{ d with blockNumber := r.blockNumber }, r.handled, .returned⟩
    | .panicked => ⟨{ d with blockNumber := r.blockNumber }, r.handled, .panicked⟩

/-- The successive states of a dumper over a sequence of polls, the starting
state first.  A panic ends the process, so the sequence stops before it. -/
def runPolls (d : Dumper) : List Poll → List Dumper
  | [] => [d]
  | p :: ps =>
    if (DumpGRID d p).exit = .panicked then [d]
    else d :: runPolls (DumpGRID d p).dumper ps

/-! ## Order creation (`Dumper.HandleCreateOrder`, `Order.CreateOrder`) -/

/-- The three `*big.Int` fields of a decoded `CreateOrderEvent`. -/
inductive Cell where
  | Act
  | Pro
  | Dur
  deriving DecidableEq, Repr

/-- The values of the three cells. -/
abbrev Heap := Cell → Int

/-- The call `z.Add(x, y)` of `big.Int`: the cell `z` receives the sum, and
the pointer returned is `z`. -/
def bigAdd (z x y : Cell) (h : Heap) : Heap :=
  fun c => if c = z then h x + h y else h c

/-- The method `big.Int.Int64`: the low 64 bits as an `int64`. -/
def bigInt64 (x : Int) : Int := wrap64 x

/-- A decoded `CreateOrder` event. -/
structure CreateOrderEvent where
  Cp : String
  Id : Nat
  Nid : Nat
  Act : Int
  Pro : Int
  Dur : Int
  deriving DecidableEq, Repr

/-- The order row as `HandleCreateOrder` fills it.  The three times are
instants in nanoseconds since the Unix epoch. -/
structure Order where
  User : String
  Provider : String
  Id : Nat
  Nid : Nat
  ActivateTime : Int
  StartTime : Int
  EndTime : Int
  Probation : Int
  Duration : Int
  deriving DecidableEq, Repr

/-- The call `time.Unix(sec, 0)`. -/
def timeUnix (sec : Int) : Int := sec * 1000000000

/-- The conversion `time.Duration(n) * time.Second` on `int64`. -/
def secondsDuration (n : Int) : Int := wrap64 (n * 1000000000)

/-- The method `Order.CreateOrder` of `database/order.go`, lines 19-23: start
and end are recomputed from the activation time, then the row is handed to the
database. -/
def CreateOrder (o : Order) : Order :=
  let start := o.ActivateTime + secondsDuration o.Probation
  { o with StartTime := start, EndTime := start + secondsDuration o.Duration }

/-- The method `HandleCreateOrder`, lines 342-357, on a decoded event: the row
handed to the database.  `out.Act.Add(out.Act, out.Pro)` stores the sum in
`out.Act` and `startTime` is that same pointer; `startTime.Add(startTime,
out.Dur)` stores again in the same cell and `endTime` is that pointer too.
The row is filled by reading the cells afterwards. -/
def HandleCreateOrder (out : CreateOrderEvent) (sender : String) : Order :=
  let h0 : Heap := fun c =>
    match c with
    | .Act => out.Act
    | .Pro => out.Pro
    | .Dur => out.Dur
  let h1 := bigAdd .Act .Act .Pro h0
  let startTime := Cell.Act
  let h2 := bigAdd startTime startTime .Dur h1
  let endTime := startTime
  CreateOrder
    { User := sender
      Provider := out.Cp
      Id := out.Id
      Nid := out.Nid
      ActivateTime := timeUnix (bigInt64 (h2 .Act))
      StartTime := timeUnix (bigInt64 (h2 startTime))
      EndTime := timeUnix (bigInt64 (h2 endTime))
      Probation := bigInt64 (h2 .Pro)
      Duration := bigInt64 (h2 .Dur) }

/-! ## Phase waits (`GRIDValidator.CalculateWatingToPrepare`, `CalculateWatingToProve`) -/

/-- The validator's anchor `last` (Unix seconds, `int64`) and its three
intervals (`time.Duration`, nanoseconds as `int64`). -/
structure GRIDValidator where
  last : Int
  prepareInterval : Int
  proveInterval : Int
  waitInterval : Int
  deriving DecidableEq, Repr

/-- The number of binary digits of `n`, by halving at most `fuel` times. -/
def bitLenAux : Nat → Nat → Nat
  | 0, _ => 0
  | fuel + 1, n => if n = 0 then 0 else bitLenAux fuel (n / 2) + 1

/-- The number of binary digits of `n` (0 for 0), for `n` below `2^128`. -/
def bitLen (n : Nat) : Nat := bitLenAux 128 n

/-- The quotient `num / den` rounded to the nearest integer, a tie to the even
one. -/
def divRoundEven (num den : Nat) : Nat :=
  if 2 * (num % den) < den then num / den
  else if 2 * (num % den) > den then num / den + 1
  else if (num / den) % 2 = 0 then num / den
  else num / den + 1

/-- The binary exponent of a positive ratio: the `e` with
`2^e <= a / b < 2^(e+1)`. -/
def floorLog2Ratio (a b : Nat) : Int :=
  let e0 : Int := (bitLen a : Int) - (bitLen b : Int)
  if (if 0 ≤ e0 then b * 2 ^ e0.toNat ≤ a else b ≤ a * 2 ^ (-e0).toNat) then e0 else e0 - 1

/-- A finite non-negative `float64`: the value `m * 2^e`, with `m` of at most
53 bits (`m = 0` for zero). -/
structure F64 where
  m : Nat
  e : Int
  deriving DecidableEq, Repr

/-- The `float64` nearest to the ratio `a / b`, a tie to the even mantissa
(the rounding of every `float64` operation), for ratios in the normal range. -/
def roundF64 (a b : Nat) : F64 :=
  if a = 0 then ⟨0, 0⟩
  else
    let e := floorLog2Ratio a b
    let s := 52 - e
    let m :=
      if 0 ≤ s then divRoundEven (a * 2 ^ s.toNat) b else divRoundEven a (b * 2 ^ (-s).toNat)
    ⟨m, e - 52⟩

/-- The conversion of a non-negative `float64` to `int64`: the fraction is
dropped. -/
def truncF64 (f : F64) : Nat :=
  if 0 ≤ f.e then f.m * 2 ^ f.e.toNat else f.m / 2 ^ (-f.e).toNat

/-- The `float64` sum `float64(n) + f` for an integer `n` that a `float64`
holds exactly: the exact sum, rounded. -/
def addNatF64 (n : Nat) (f : F64) : F64 :=
  if 0 ≤ f.e then roundF64 (n + f.m * 2 ^ f.e.toNat) 1
  else roundF64 (n * 2 ^ (-f.e).toNat + f.m) (2 ^ (-f.e).toNat)

/-- The body of `Duration.Seconds` followed by the conversion to `int64`, on
the magnitudes of `sec := d / Second` and `nsec := d % Second`:
`float64(sec) + float64(nsec)/1e9`, where both conversions are exact (`sec` is
below `2^34` and `nsec` below `10^9`), the quotient and the sum are each
rounded to `float64`, and the conversion to `int64` drops the fraction. -/
def secondsAbs (sec nsec : Nat) : Nat :=
  truncF64 (addNatF64 sec (roundF64 nsec 1000000000))

/-- The conversion `int64(d.Seconds())` of a `time.Duration` `d`, as the three
scheduling methods write it.  `sec` and `nsec` have the sign of `d`, `float64`
arithmetic is symmetric in the sign, and the conversion to `int64` truncates
toward zero, so the result is the one for the magnitudes with the sign of `d`.
The result is not always the truncated quotient `d / 10^9`: the `float64` sum
can round up to the next whole second (16777217 for a `d` of
16777216.999999999 s). -/
def seconds (d : Int) : Int :=
  if d < 0 then
    -(secondsAbs (Int.tdiv d 1000000000).natAbs (Int.tmod d 1000000000).natAbs : Int)
  else (secondsAbs (Int.tdiv d 1000000000).natAbs (Int.tmod d 1000000000).natAbs : Int)

/-- The local `challengeCycleSeconds` of the three scheduling methods. -/
def challengeCycleSeconds (v : GRIDValidator) : Int :=
  seconds (wrap64 (wrap64 (v.prepareInterval + v.proveInterval) + v.waitInterval))

/-- What a wait computation returns: the validator with its anchor realigned,
the wait as a `time.Duration` and the next anchor. -/
structure WaitResult where
  v : GRIDValidator
  wait : Int
  next : Int
  deriving DecidableEq, Repr

/-- The method `CalculateWatingToPrepare`, lines 222-236, at clock reading
`now`; `none` when `%` panics on a zero cycle. -/
def CalculateWatingToPrepare (v : GRIDValidator) (now : Int) : Option WaitResult :=
  let cycle := challengeCycleSeconds v
  let duration := wrap64 (now - v.last)
  (rem64 duration cycle).map fun over =>
    let waitingSeconds := if over ≥ seconds v.prepareInterval then wrap64 (cycle - over) else 0
    let last := wrap64 (now - over)
    { v := { v with last := last }
      wait := wrap64 (waitingSeconds * 1000000000)
      next := wrap64 (last + cycle) }

/-- The method `CalculateWatingToProve`, lines 239-256, at clock reading
`now`; `none` when `%` panics on a zero cycle. -/
def CalculateWatingToProve (v : GRIDValidator) (now : Int) : Option WaitResult :=
  let cycle := challengeCycleSeconds v
  let duration := wrap64 (now - v.last)
  (rem64 duration cycle).map fun over =>
    let prepare := seconds v.prepareInterval
    let waitingSeconds :=
      if over < prepare then wrap64 (prepare - over)
      else if over > seconds (wrap64 (v.prepareInterval + v.proveInterval)) then
        wrap64 (wrap64 (cycle + prepare) - over)
      else 0
    let last :=
      if over < prepare then wrap64 (now - over)
      else if over > seconds (wrap64 (v.prepareInterval + v.proveInterval)) then
        wrap64 (wrap64 (now - over) + cycle)
      else v.last
    { v := { v with last := last }
      wait := wrap64 (waitingSeconds * 1000000000)
      next := wrap64 (last + cycle) }

/-- The method `IsProveTime`, lines 209-219, at clock reading `now`. -/
def IsProveTime (v : GRIDValidator) (now : Int) : Option Bool :=
  let cycle := challengeCycleSeconds v
  let duration := wrap64 (now - v.last)
  (rem64 duration cycle).map fun over =>
    decide (over ≥ seconds v.prepareInterval ∧
      over ≤ seconds (wrap64 (v.prepareInterval + v.proveInterval)))

/-- The local `over` of the three scheduling methods, lines 211-213,
224-226 and 241-243: the remainder `%` leaves for `now - v.last` and the cycle
length; `none` when `%` panics on a zero cycle. -/
def over (v : GRIDValidator) (now : Int) : Option Int :=
  rem64 (wrap64 (now - v.last)) (challengeCycleSeconds v)

/-! ## Byte encoding (`NodeID.ToBytes`) -/

/-- The table `reverseHexTable` of `encoding/hex`: the value of a hexadecimal
digit of either case, `none` for any other character. -/
def hexVal (c : Char) : Option Nat :=
  if '0' ≤ c ∧ c ≤ '9' then some (c.toNat - 48)
  else if 'a' ≤ c ∧ c ≤ 'f' then some (c.toNat - 87)
  else if 'A' ≤ c ∧ c ≤ 'F' then some (c.toNat - 55)
  else none

/-- The function `hex.DecodeString` as `common.Hex2Bytes` uses it (the error
is dropped): pairs of digits are decoded from the left, and decoding stops at
the first pair that holds a character that is no digit; a trailing single
character yields no byte. -/
def hexDecode : List Char → List Nat
  | p :: q :: rest =>
    match hexVal p, hexVal q with
    | some a, some b => (a * 16 + b) :: hexDecode rest
    | _, _ => []
  | _ => []

/-- The function `common.Hex2Bytes`. -/
def Hex2Bytes (str : String) : List Nat := hexDecode str.toList

/-- The call `binary.LittleEndian.PutUint64` on a fresh buffer of 8 bytes. -/
def putUint64LE (x : Nat) : List Nat :=
  [x % 256, x / 256 % 256, x / 65536 % 256, x / 16777216 % 256,
    x / 4294967296 % 256, x / 1099511627776 % 256, x / 281474976710656 % 256,
    x / 72057594037927936 % 256]

/-- The method `NodeID.ToBytes`, lines 14-19 of `types.go`. -/
def NodeID.ToBytes (n : NodeID) : List Nat :=
  Hex2Bytes n.Provider ++ putUint64LE n.ID

/-! ## Challenge set (`GRIDValidator.GetChallengeNode`) -/

/-- The loop of `GetChallengeNode`, lines 276-284, on the orders that
`ListAllActivedOrder` returned: every order's node is entered with `false`. -/
def GetChallengeNode (orders : List Order) : ResultMap :=
  orders.foldl
    (fun resultMap order k =>
      if k = { Provider := order.Provider, ID := order.Id } then some false else resultMap k)
    (fun _ => none)

/-! ## Withdrawal (`Dumper.HandleWithdraw`) -/

/-- Modelled from the spec: the Profit table behind
`database.GetProfitByAddress` and `Profit.UpdateProfit`, which are not among
the sources; one row per provider address, `none` where no row exists. -/
abbrev ProfitStore := String → Option Profit

/-- Modelled from the spec: the lookup `database.GetProfitByAddress`, which
fails when no row exists for the address. -/
def GetProfitByAddress (db : ProfitStore) (address : String) : Option Profit :=
  db address

/-- Modelled from the spec: the write `Profit.UpdateProfit`, which replaces
the row stored under the row's address. -/
def UpdateProfit (db : ProfitStore) (p : Profit) : ProfitStore :=
  fun a => if a = p.Address then some p else db a

/-- A decoded `Withdraw` event: the provider address (`out.Cp.Hex()`) and the
amount. -/
structure WithdrawEvent where
  Cp : String
  Amount : Int
  deriving DecidableEq, Repr

/-- The method `HandleWithdraw`, lines 371-386, on the outcome of decoding
(`none` when `unpack` failed) and of the write (`updateErr`).  The result is
whether an error is returned, and the store afterwards.  `Nonce` is a
`uint64`, so `profit.Nonce++` wraps at `2^64`. -/
def HandleWithdraw (db : ProfitStore) (decoded : Option WithdrawEvent) (updateErr : Bool) :
    Bool × ProfitStore :=
  match decoded with
  | none => (true, db)
  | some out =>
    match GetProfitByAddress db out.Cp with
    | none => (true, db)
    | some profit =>
      let updated : Profit :=
        { profit with
          Balance := profit.Balance - out.Amount
          Nonce := (profit.Nonce + 1) % 18446744073709551616 }
      if updateErr then (true, db) else (false, UpdateProfit db updated)

/-! ## Node storage (`NodeToNodeStore`, `NodeStoreToNode`) -/

/-- The character of a decimal digit. -/
def digitChar (d : Nat) : Char := Char.ofNat (48 + d)

/-- The value of a decimal digit, `none` for any other character. -/
def decVal (c : Char) : Option Nat :=
  if '0' ≤ c ∧ c ≤ '9' then some (c.toNat - 48) else none

/-- The decimal digits of a natural number, most significant first, `0` for
zero. -/
def natString (n : Nat) : List Char :=
  if n = 0 then ['0'] else (Nat.digits 10 n).reverse.map digitChar

/-- The method `big.Int.String` on a non-nil value: the decimal digits, with
`-` in front of a negative number. -/
def bigString (x : Int) : String :=
  String.mk (if x < 0 then '-' :: natString x.natAbs else natString x.natAbs)

/-- A non-empty run of decimal digits read from the left; `none` when the run
is empty or holds another character. -/
def parseDecimal (cs : List Char) : Option Nat :=
  if cs = [] then none
  else cs.foldl (fun acc c => acc.bind fun a => (decVal c).map fun d => a * 10 + d) (some 0)

/-- The call `new(big.Int).SetString(s, 10)`: an optional sign, then decimal
digits to the end of the string; `none` when `ok` is false. -/
def bigSetString (s : String) : Option Int :=
  match s.toList with
  | [] => none
  | c :: rest =>
    if c = '-' then (parseDecimal rest).map fun n => -(n : Int)
    else if c = '+' then (parseDecimal rest).map fun n => (n : Int)
    else (parseDecimal (c :: rest)).map fun n => (n : Int)

/-- The struct `Node` of `database/node.go`; the four prices are non-nil
`*big.Int`. -/
structure Node where
  Address : String
  Id : Int
  CPUPrice : Int
  CPUModel : String
  GPUPrice : Int
  GPUModel : String
  MemPrice : Int
  MemCapacity : Int
  DiskPrice : Int
  DiskCapacity : Int
  deriving DecidableEq, Repr

/-- The struct `NodeStore` of `database/node.go`: the prices as strings. -/
structure NodeStore where
  Address : String
  Id : Int
  CPUPrice : String
  CPUModel : String
  GPUPrice : String
  GPUModel : String
  MemPrice : String
  MemCapacity : Int
  DiskPrice : String
  DiskCapacity : Int
  deriving DecidableEq, Repr

/-- The function `NodeToNodeStore`, lines 66-83 of `node.go`. -/
def NodeToNodeStore (node : Node) : NodeStore :=
  { Address := node.Address
    Id := node.Id
    CPUPrice := bigString node.CPUPrice
    CPUModel := node.CPUModel
    GPUPrice := bigString node.GPUPrice
    GPUModel := node.GPUModel
    MemPrice := bigString node.MemPrice
    MemCapacity := node.MemCapacity
    DiskPrice := bigString node.DiskPrice
    DiskCapacity := node.DiskCapacity }

/-- The function `NodeStoreToNode`, lines 85-122 of `node.go`; `none` when a
price does not parse. -/
def NodeStoreToNode (node : NodeStore) : Option Node :=
  match bigSetString node.CPUPrice with
  | none => none
  | some cpuPrice =>
    match bigSetString node.GPUPrice with
    | none => none
    | some gpuPrice =>
      match bigSetString node.MemPrice with
      | none => none
      | some memPrice =>
        match bigSetString node.DiskPrice with
        | none => none
        | some diskPrice =>
          some
            { Address := node.Address
              Id := node.Id
              CPUPrice := cpuPrice
              CPUModel := node.CPUModel
              GPUPrice := gpuPrice
              GPUModel := node.GPUModel
              MemPrice := memPrice
              MemCapacity := node.MemCapacity
              DiskPrice := diskPrice
              DiskCapacity := node.DiskCapacity }

/-! ## Registration (`Dumper.HandleRegister`) -/

/-- The struct `Provider` of `database/provider.go`; `Address` is the primary
key. -/
structure Provider where
  Address : String
  Name : String
  IP : String
  Domain : String
  Port : String
  deriving DecidableEq, Repr

/-- The Provider table behind `GlobalDataBase`: one row per address, `none`
where no row exists. -/
abbrev ProviderStore := String → Option Provider

/-- The method `Provider.CreateProvider`, lines 15-17 of `provider.go`: the
insert of a row.  It is rejected (`none`) when the store fails (`storeErr`) or
when a row with the same primary key exists. -/
def CreateProvider (db : ProviderStore) (p : Provider) (storeErr : Bool) :
    Option ProviderStore :=
  if storeErr then none
  else
    match db p.Address with
    | some _ => none
    | none => some fun a => if a = p.Address then some p else db a

/-- Modelled from the spec: the insert `Profit.CreateProfit`, which is not
among the sources; the table is keyed by provider address, so the insert is
rejected (`none`) when the store fails (`storeErr`) or when a row exists for
the address. -/
def CreateProfit (db : ProfitStore) (p : Profit) (storeErr : Bool) : Option ProfitStore :=
  if storeErr then none
  else
    match db p.Address with
    | some _ => none
    | none => some fun a => if a = p.Address then some p else db a

/-- A decoded `Register` event; `Cp` is the address as `out.Cp.Hex()` writes
it. -/
structure RegisterEvent where
  Cp : String
  Name : String
  Ip : String
  Domain : String
  Port : String
  deriving DecidableEq, Repr

/-- The two tables `HandleRegister` writes. -/
structure Stores where
  providers : ProviderStore
  profits : ProfitStore

/-- The store with no row. -/
def emptyStores : Stores :=
  { providers := fun _ => none, profits := fun _ => none }

/-- What one call of `HandleRegister` receives from outside: the outcome of
decoding (`none` when `unpack` failed), the reading of `time.Now()`, and
whether the store fails on the Provider insert and on the Profit insert. -/
structure RegisterCall where
  decoded : Option RegisterEvent
  now : Int
  providerErr : Bool
  profitErr : Bool
  deriving DecidableEq, Repr

/-- The method `HandleRegister`, lines 237-267: the Provider row is inserted
first and an error of that insert is returned at once; the zeroed Profit row
is inserted afterwards.  The result is whether an error is returned, and the
tables afterwards. -/
def HandleRegister (s : Stores) (c : RegisterCall) : Bool × Stores :=
  match c.decoded with
  | none => (true, s)
  | some out =>
    let providerInfo : Provider :=
      { Address := out.Cp, Name := out.Name, IP := out.Ip, Domain := out.Domain,
        Port := out.Port }
    match CreateProvider s.providers providerInfo c.providerErr with
    | none => (true, s)
    | some providers =>
      let profitInfo : Profit :=
        { Address := out.Cp, Balance := 0, Profit := 0, Penalty := 0,
          LastTime := c.now, EndTime := c.now, Nonce := 0 }
      match CreateProfit s.profits profitInfo c.profitErr with
      | none => (true, { s with providers := providers })
      | some profits => (false, { providers := providers, profits := profits })

/-- The tables after a sequence of `HandleRegister` calls. -/
def runRegisters (s : Stores) (calls : List RegisterCall) : Stores :=
  calls.foldl (fun st c => (HandleRegister st c).2) s

/-- The logs of a batch that `DumpGRID` dispatches to a handler. -/
def isDispatched (e : Log) : Bool :=
  match e.name with
  | some .Register => true
  | some .AddNode => true
  | some .CreateOrder => true
  | _ => false

/-- The cursor that the spec describes after a batch: `cursor` is the maximum
of `start` and one past the block number of every dispatched log of the batch
(it is at least each of them and equal to one of them). -/
def cursorIsMax (cursor start : Int) (events : List Log) : Prop :=
  start ≤ cursor ∧
    (∀ e ∈ events, isDispatched e = true → (e.BlockNumber : Int) + 1 ≤ cursor) ∧
    (cursor = start ∨
      ∃ e ∈ events, isDispatched e = true ∧ cursor = (e.BlockNumber : Int) + 1)

/-! # Properties -/

/-! ## Arithmetic helpers -/

theorem wrap64_of_isInt64 (x : Int) (h : isInt64 x) : wrap64 x = x := by
  unfold isInt64 at h
  unfold wrap64
  omega

theorem isInt64_wrap64 (x : Int) : isInt64 (wrap64 x) := by
  unfold isInt64 wrap64
  omega

theorem tdiv_eq_zero_of_lt (a b : Int) (h0 : 0 ≤ a) (h1 : a < b) : Int.tdiv a b = 0 := by
  rw [Int.tdiv_eq_ediv h0 (by omega)]
  exact Int.ediv_eq_zero_of_lt h0 h1

/-- The prorating branch yields zero whenever the schedule span fits an
`int64`. -/
theorem calcReward_prorated (last : Int) (p : Profit)
    (h1 : p.LastTime < last) (h2 : last < p.EndTime)
    (h3 : p.EndTime - p.LastTime < 9223372036854775808) :
    calcReward last p = some (p.Profit * Int.tdiv (last - p.LastTime) (p.EndTime - p.LastTime)) ∧
      Int.tdiv (last - p.LastTime) (p.EndTime - p.LastTime) = 0 := by
  have hq : Int.tdiv (last - p.LastTime) (p.EndTime - p.LastTime) = 0 :=
    tdiv_eq_zero_of_lt _ _ (by omega) (by omega)
  have ha : wrap64 (last - p.LastTime) = last - p.LastTime :=
    wrap64_of_isInt64 _ (by unfold isInt64; omega)
  have hb : wrap64 (p.EndTime - p.LastTime) = p.EndTime - p.LastTime :=
    wrap64_of_isInt64 _ (by unfold isInt64; omega)
  refine ⟨?_, hq⟩
  unfold calcReward div64
  rw [ha, hb, hq]
  have hne : ¬ (p.EndTime - p.LastTime = 0) := by omega
  simp [not_le.mpr h1, not_le.mpr h2, hne, wrap64]

/-! ## Settlement -/

/-- C1: for a row with `lastTime < endTime`, one settlement step run with
`v.last >= endTime` returns a row, adds exactly the stored profit to the
balance and leaves the profit field 0 (the penalty field unchanged), whether
the proof succeeded or failed. -/
theorem c1_matured_step_pays_whole_profit (last : Int) (result : Bool) (p : Profit)
    (h01 : p.LastTime < p.EndTime) (hl : p.EndTime ≤ last) :
    ∃ q, AddPenaltyStep last result p = some q ∧
      q.Balance = p.Balance + p.Profit ∧ q.Profit = 0 ∧ q.Penalty = p.Penalty ∧
      q.LastTime = last := by
  have h1 : ¬ last ≤ p.LastTime := by omega
  refine ⟨applySettlement last result p p.Profit, ?_, ?_, ?_, ?_, ?_⟩
  · simp [AddPenaltyStep, calcReward, h1, hl]
  · simp [applySettlement]
  · cases result <;> simp [applySettlement, calcPenalty]
  · cases result <;> simp [applySettlement, calcPenalty]
  · simp [applySettlement]

/-- Witness of C1: a row with schedule `[100, 200)` and profit 5000 settled at
`v.last = 200` after a failed proof. -/
theorem c1_matured_step_pays_whole_profit_witness :
    ∃ q, AddPenaltyStep 200 false
        { Address := "cp", Balance := 7, Profit := 5000, Penalty := 3,
          LastTime := 100, EndTime := 200, Nonce := 0 } = some q ∧
      q.Balance = 7 + 5000 ∧ q.Profit = 0 ∧ q.Penalty = 3 ∧ q.LastTime = 200 :=
  c1_matured_step_pays_whole_profit 200 false
    { Address := "cp", Balance := 7, Profit := 5000, Penalty := 3,
      LastTime := 100, EndTime := 200, Nonce := 0 } (by decide) (by decide)

/-- C2 as stated fails: with `lastTime = -2^63`, `endTime = 2^63 - 1` and
`v.last = lastTime + 5` the span `endTime - lastTime` wraps to `-1` on
`int64`, the quotient is `-5`, and a row with profit 100 is credited `-500`
instead of 0. -/
theorem c2_counterexample_span_overflow :
    isInt64 (-9223372036854775808) ∧ isInt64 9223372036854775807 ∧
      isInt64 (-9223372036854775803) ∧
      (-9223372036854775808 : Int) < -9223372036854775803 ∧
      (-9223372036854775803 : Int) < 9223372036854775807 ∧
      calcReward (-9223372036854775803)
        { Address := "cp", Balance := 7, Profit := 100, Penalty := 0,
          LastTime := -9223372036854775808, EndTime := 9223372036854775807,
          Nonce := 0 } = some (-500) ∧
      (AddPenaltyStep (-9223372036854775803) true
        { Address := "cp", Balance := 7, Profit := 100, Penalty := 0,
          LastTime := -9223372036854775808, EndTime := 9223372036854775807,
          Nonce := 0 }).map (fun q => q.Balance) = some (-493) := by
  decide

/-- C2, amended: for `lastTime < v.last < endTime` with a span
`endTime - lastTime` below `2^63` seconds (no `int64` overflow), the reward is
`profit * ((v.last - lastTime) / (endTime - lastTime))` with the truncated
quotient taken first, that quotient is 0, the reward is 0, and the step
returns a row with the balance unchanged. -/
theorem c2_inside_schedule_reward_zero (last : Int) (result : Bool) (p : Profit)
    (h1 : p.LastTime < last) (h2 : last < p.EndTime)
    (h3 : p.EndTime - p.LastTime < 9223372036854775808) :
    calcReward last p =
        some (p.Profit * Int.tdiv (last - p.LastTime) (p.EndTime - p.LastTime)) ∧
      calcReward last p = some 0 ∧
      ∃ q, AddPenaltyStep last result p = some q ∧ q.Balance = p.Balance := by
  obtain ⟨hr, hq⟩ := calcReward_prorated last p h1 h2 h3
  have h0 : calcReward last p = some 0 := by rw [hr, hq, mul_zero]
  refine ⟨hr, h0, applySettlement last result p 0, ?_, ?_⟩
  · simp [AddPenaltyStep, h0]
  · simp [applySettlement]

/-- Witness of C2: schedule `[100, 200)`, profit 5000, settled at 150. -/
theorem c2_inside_schedule_reward_zero_witness :
    calcReward 150
        { Address := "cp", Balance := 7, Profit := 5000, Penalty := 3,
          LastTime := 100, EndTime := 200, Nonce := 0 } =
        some (5000 * Int.tdiv (150 - 100) (200 - 100)) ∧
      calcReward 150
        { Address := "cp", Balance := 7, Profit := 5000, Penalty := 3,
          LastTime := 100, EndTime := 200, Nonce := 0 } = some 0 ∧
      ∃ q, AddPenaltyStep 150 false
        { Address := "cp", Balance := 7, Profit := 5000, Penalty := 3,
          LastTime := 100, EndTime := 200, Nonce := 0 } = some q ∧ q.Balance = 7 :=
  c2_inside_schedule_reward_zero 150 false
    { Address := "cp", Balance := 7, Profit := 5000, Penalty := 3,
      LastTime := 100, EndTime := 200, Nonce := 0 } (by decide) (by decide) (by decide)

/-- C3 as stated fails for a negative remainder: a row with profit `-1`
settled with reward 0 after a failed proof gets `-1` added to its penalty
field (`big.Int.Div` is Euclidean), where truncating division gives 0. -/
theorem c3_counterexample_negative_remaining :
    calcReward 0
        { Address := "cp", Balance := 0, Profit := -1, Penalty := 0,
          LastTime := 0, EndTime := 10, Nonce := 0 } = some 0 ∧
      (AddPenaltyStep 0 false
        { Address := "cp", Balance := 0, Profit := -1, Penalty := 0,
          LastTime := 0, EndTime := 10, Nonce := 0 }).map (fun q => q.Penalty - 0) =
        some (-1) ∧
      Int.tdiv (-1 - 0) 100 = 0 := by
  decide

/-- C3, amended: for every row, every `v.last` and every integer reward (hence
every integer `remaining = profit - reward`, negative ones included) the step
adds to the penalty field 0 after a succeeded proof and the Euclidean (floor)
quotient `remaining / 100` after a failed one, which is the truncated quotient
whenever `remaining >= 0` (`10000` gives `100`); the new profit field is
`remaining` minus that amount; and every row `AddPenaltyStep` returns is such
an update for the reward computed. -/
theorem c3_penalty_is_euclidean_hundredth (last : Int) (result : Bool) (p : Profit)
    (reward : Int) :
    ((applySettlement last result p reward).Penalty - p.Penalty =
        if result then 0 else (p.Profit - reward) / 100) ∧
      ((applySettlement last result p reward).Profit =
        (p.Profit - reward) - ((applySettlement last result p reward).Penalty - p.Penalty)) ∧
      (0 ≤ p.Profit - reward → (p.Profit - reward) / 100 = Int.tdiv (p.Profit - reward) 100) ∧
      calcPenalty false 10000 = 100 ∧
      (∀ q, AddPenaltyStep last result p = some q →
        ∃ r, calcReward last p = some r ∧ q = applySettlement last result p r) := by
  refine ⟨?_, ?_, ?_, by decide, ?_⟩
  · cases result <;> simp [applySettlement, calcPenalty]
  · cases result <;> simp [applySettlement, calcPenalty]
  · intro h
    exact (Int.tdiv_eq_ediv h (by decide)).symm
  · intro q hq
    unfold AddPenaltyStep at hq
    cases hr : calcReward last p with
    | none => simp [hr] at hq
    | some r =>
      refine ⟨r, rfl, ?_⟩
      simp [hr] at hq
      exact hq.symm

/-- C4 as stated fails: with `lastTime = -2^63`, `v.last = 0` and
`endTime = 2^63 - 2` both differences wrap on `int64`, the quotient is `2^62`,
and a row with profit 1 ends with a negative profit field. -/
theorem c4_counterexample_span_overflow :
    isInt64 (-9223372036854775808) ∧ isInt64 0 ∧ isInt64 9223372036854775806 ∧
      (AddPenaltyStep 0 true
        { Address := "cp", Balance := 0, Profit := 1, Penalty := 0,
          LastTime := -9223372036854775808, EndTime := 9223372036854775806,
          Nonce := 0 }).map (fun q => q.Profit) = some (-4611686018427387903) := by
  decide

/-- C4, amended: for every row whose stored profit is `>= 0`, every `v.last`
and either proof outcome, provided the span `endTime - lastTime` is below
`2^63` seconds whenever `lastTime < v.last < endTime` (no `int64` overflow in
the prorating branch), the step returns a row whose profit field satisfies
`0 <= profit' <= profit`. -/
theorem c4_profit_stays_within_bounds (last : Int) (result : Bool) (p : Profit)
    (hp : 0 ≤ p.Profit)
    (hspan : p.LastTime < last → last < p.EndTime →
      p.EndTime - p.LastTime < 9223372036854775808) :
    ∃ q, AddPenaltyStep last result p = some q ∧ 0 ≤ q.Profit ∧ q.Profit ≤ p.Profit := by
  have key : ∀ r, (r = 0 ∨ r = p.Profit) →
      0 ≤ (applySettlement last result p r).Profit ∧
        (applySettlement last result p r).Profit ≤ p.Profit := by
    intro r hr
    cases result <;> rcases hr with h | h <;> subst h <;>
      simp only [applySettlement, calcPenalty] <;> simp <;> omega
  have hr : ∃ r, calcReward last p = some r ∧ (r = 0 ∨ r = p.Profit) := by
    by_cases h1 : last ≤ p.LastTime
    · exact ⟨0, by simp [calcReward, h1], Or.inl rfl⟩
    · by_cases h2 : last ≥ p.EndTime
      · exact ⟨p.Profit, by simp [calcReward, h1, h2], Or.inr rfl⟩
      · have h3 := hspan (by omega) (by omega)
        obtain ⟨hc, hq⟩ := calcReward_prorated last p (by omega) (by omega) h3
        exact ⟨0, by rw [hc, hq, mul_zero], Or.inl rfl⟩
  obtain ⟨r, hc, hr⟩ := hr
  exact ⟨applySettlement last result p r, by simp [AddPenaltyStep, hc], key r hr⟩

/-- Witness of C4: schedule `[100, 200)`, profit 5000, settled at 150 after a
failed proof. -/
theorem c4_profit_stays_within_bounds_witness :
    ∃ q, AddPenaltyStep 150 false
        { Address := "cp", Balance := 7, Profit := 5000, Penalty := 3,
          LastTime := 100, EndTime := 200, Nonce := 0 } = some q ∧
      0 ≤ q.Profit ∧ q.Profit ≤ 5000 :=
  c4_profit_stays_within_bounds 150 false
    { Address := "cp", Balance := 7, Profit := 5000, Penalty := 3,
      LastTime := 100, EndTime := 200, Nonce := 0 } (by decide)
    (fun _ _ => by decide)

/-! ## Result collection -/

/-- C5 as stated fails: a `Result` with `Success = false` for a member key
leaves `true` at that key, not its `Success` flag. -/
theorem c5_counterexample_failure_recorded_as_true :
    (fun k : NodeID => if k = ⟨"cp", 1⟩ then some false else none) ⟨"cp", 1⟩ = some false ∧
      receiveResult (fun k => if k = ⟨"cp", 1⟩ then some false else none)
        ⟨⟨"cp", 1⟩, false⟩ ⟨"cp", 1⟩ = some true ∧
      HandleResult (fun k => if k = ⟨"cp", 1⟩ then some false else none)
        [⟨⟨"cp", 1⟩, false⟩] ⟨"cp", 1⟩ ≠ some false := by
  decide

/-- C5, amended: for every result map and every received `Result` whose
`NodeID` is a key of the map, after it is processed the value stored at that
key is `true`, whatever its `Success` flag (a `Result` with `Success = false`
sets `true` as well), and every other key keeps its value. -/
theorem c5_member_result_sets_true (m : ResultMap) (r : Result)
    (hk : (m r.NodeID).isSome = true) :
    receiveResult m r r.NodeID = some true ∧
      HandleResult m [r] r.NodeID = some true ∧
      ∀ k, k ≠ r.NodeID → receiveResult m r k = m k := by
  obtain ⟨b, hb⟩ := Option.isSome_iff_exists.mp hk
  have h1 : receiveResult m r = fun k => if k = r.NodeID then some true else m k := by
    unfold receiveResult
    rw [hb]
  refine ⟨by simp [h1], by simp [HandleResult, h1], ?_⟩
  intro k hne
  simp [h1, hne]

/-- Witness of C5: a failed result for a member key. -/
theorem c5_member_result_sets_true_witness :
    receiveResult (fun k => if k = ⟨"cp", 1⟩ then some false else none)
        ⟨⟨"cp", 1⟩, false⟩ (Result.NodeID ⟨⟨"cp", 1⟩, false⟩) = some true ∧
      HandleResult (fun k => if k = ⟨"cp", 1⟩ then some false else none)
        [⟨⟨"cp", 1⟩, false⟩] (Result.NodeID ⟨⟨"cp", 1⟩, false⟩) = some true ∧
      ∀ k, k ≠ Result.NodeID ⟨⟨"cp", 1⟩, false⟩ →
        receiveResult (fun k => if k = ⟨"cp", 1⟩ then some false else none)
          ⟨⟨"cp", 1⟩, false⟩ k =
        (fun k : NodeID => if k = ⟨"cp", 1⟩ then some false else none) k :=
  c5_member_result_sets_true (fun k => if k = ⟨"cp", 1⟩ then some false else none)
    ⟨⟨"cp", 1⟩, false⟩ (by decide)

/-! ## Ingestion cursor -/

/-- A processed log whose block number is below `2^63 - 1` never lowers a
cursor that is an `int64`, and leaves it an `int64`. -/
theorem advance_mono (c : Int) (e : Log) (hc : isInt64 c)
    (hb : e.BlockNumber < 9223372036854775807) :
    c ≤ advance c e ∧ isInt64 (advance c e) := by
  unfold isInt64 at hc
  unfold advance bigUint64
  split
  · rename_i h
    unfold isInt64 wrap64
    omega
  · exact ⟨le_refl c, hc⟩

/-- The loop never lowers the cursor on a batch of block numbers below
`2^63 - 1`. -/
theorem dumpLoop_mono (events : List Log) :
    ∀ (c : Int) (handled : List Log), isInt64 c →
      (∀ e ∈ events, e.BlockNumber < 9223372036854775807) →
      c ≤ (dumpLoop c handled events).blockNumber ∧
        isInt64 (dumpLoop c handled events).blockNumber := by
  induction events with
  | nil =>
    intro c handled hc _
    exact ⟨le_refl c, hc⟩
  | cons e rest ih =>
    intro c handled hc hb
    have he := hb e (List.mem_cons_self e rest)
    have hrest : ∀ x ∈ rest, x.BlockNumber < 9223372036854775807 :=
      fun x hx => hb x (List.mem_cons_of_mem e hx)
    have hadv := advance_mono c e hc he
    have hnext : ∀ h2 : List Log,
        c ≤ (dumpLoop (advance c e) h2 rest).blockNumber ∧
          isInt64 (dumpLoop (advance c e) h2 rest).blockNumber := by
      intro h2
      have := ih (advance c e) h2 hadv.2 hrest
      exact ⟨le_trans hadv.1 this.1, this.2⟩
    unfold dumpLoop
    split
    · exact ih c handled hc hrest
    · exact ih c handled hc hrest
    · split
      · exact ⟨le_refl c, hc⟩
      · exact hnext _
    · split
      · exact ⟨le_refl c, hc⟩
      · exact hnext _
    · split
      · exact ⟨le_refl c, hc⟩
      · split
        · exact ⟨le_refl c, hc⟩
        · exact hnext _

/-- One call of `DumpGRID` on a batch of block numbers below `2^63 - 1`
preserves `persisted <= in-memory` and lowers neither cursor. -/
theorem DumpGRID_mono (d : Dumper) (p : Poll) (hd : isInt64 d.blockNumber)
    (hle : persistedCursor d ≤ d.blockNumber)
    (hb : ∀ evs, p.events = some evs → ∀ e ∈ evs, e.BlockNumber < 9223372036854775807) :
    d.blockNumber ≤ (DumpGRID d p).dumper.blockNumber ∧
      persistedCursor d ≤ persistedCursor (DumpGRID d p).dumper ∧
      persistedCursor (DumpGRID d p).dumper ≤ (DumpGRID d p).dumper.blockNumber ∧
      isInt64 (DumpGRID d p).dumper.blockNumber := by
  unfold DumpGRID
  cases hev : p.events with
  | none => exact ⟨le_refl _, le_refl _, hle, hd⟩
  | some evs =>
    obtain ⟨hm, hi⟩ := dumpLoop_mono evs d.blockNumber [] hd (hb evs hev)
    simp only
    cases (dumpLoop d.blockNumber [] evs).exit with
    | finished =>
      simp only
      split
      · rename_i hgt
        have hw := wrap64_of_isInt64 _ hi
        simp only [persistedCursor, Option.getD_some, hw] at hle ⊢
        exact ⟨hm, le_trans hle hm, le_refl _, hi⟩
      · exact ⟨hm, le_refl _, le_trans hle hm, hi⟩
    | returned => exact ⟨hm, le_refl _, le_trans hle hm, hi⟩
    | panicked => exact ⟨hm, le_refl _, le_trans hle hm, hi⟩

/-- Both cursors are non-decreasing along a run, and the persisted one stays
at or below the in-memory one, from any state where that holds. -/
theorem runPolls_mono (polls : List Poll) :
    ∀ d : Dumper, isInt64 d.blockNumber → persistedCursor d ≤ d.blockNumber →
      (∀ p ∈ polls, ∀ evs, p.events = some evs →
        ∀ e ∈ evs, e.BlockNumber < 9223372036854775807) →
      List.Chain' (fun a b : Dumper =>
          a.blockNumber ≤ b.blockNumber ∧ persistedCursor a ≤ persistedCursor b)
        (runPolls d polls) ∧
      (∀ s ∈ runPolls d polls, persistedCursor s ≤ s.blockNumber) ∧
      (runPolls d polls).head? = some d := by
  induction polls with
  | nil =>
    intro d _ hle _
    simp [runPolls, hle]
  | cons p ps ih =>
    intro d hd hle hb
    have hp := DumpGRID_mono d p hd hle (hb p (List.mem_cons_self p ps))
    have hps := ih (DumpGRID d p).dumper hp.2.2.2 hp.2.2.1
      (fun q hq => hb q (List.mem_cons_of_mem p hq))
    unfold runPolls
    split
    · simp [hle]
    · refine ⟨?_, ?_, by simp⟩
      · rw [List.chain'_cons']
        refine ⟨?_, hps.1⟩
        intro y hy
        rw [hps.2.2] at hy
        cases hy
        exact ⟨hp.1, hp.2.1⟩
      · intro s hs
        rcases List.mem_cons.mp hs with h | h
        · rw [h]; exact hle
        · exact hps.2.1 s h

/-- C6 as stated fails.  First, a processed log with block number `2^63 - 1`,
which fits a signed 64-bit integer, makes `int64(event.BlockNumber) + 1` wrap,
so the in-memory cursor drops from 0 to `-2^63`, below the persisted cursor 0.
Second, when the read of a stored cursor 100 fails at start-up the in-memory
cursor is reset to 0, below the persisted one, and a processed log of block 5
then overwrites the persisted cursor 100 with 6. -/
theorem c6_counterexample_max_block_and_failed_read :
    isInt64 9223372036854775807 ∧
      runPolls (NewGRIDDumper none false)
        [⟨some [⟨some .Register, 9223372036854775807, false, false, false⟩], false⟩] =
        [⟨0, none⟩, ⟨-9223372036854775808, none⟩] ∧
      persistedCursor ⟨-9223372036854775808, none⟩ = 0 ∧
      runPolls (NewGRIDDumper (some 100) true)
        [⟨some [⟨some .Register, 5, false, false, false⟩], false⟩] =
        [⟨0, some 100⟩, ⟨6, some 6⟩] ∧
      persistedCursor ⟨0, some 100⟩ = 100 ∧ persistedCursor ⟨6, some 6⟩ = 6 := by
  decide

/-- C6, amended: starting from `NewGRIDDumper` on any stored `int64` cursor (or
none) whose read did not fail (or failed over a stored cursor that is not
positive), over any sequence of `DumpGRID` polls whose logs have block numbers
below `2^63 - 1` and any pattern of handler, lookup, sender and write
failures, the in-memory and the persisted cursor are non-decreasing from each
state to the next and the persisted cursor never exceeds the in-memory one. -/
theorem c6_cursors_monotone (stored : CursorStore) (readErr : Bool) (polls : List Poll)
    (hs : ∀ c, stored = some c → isInt64 c)
    (hread : readErr = true → stored.getD 0 ≤ 0)
    (hb : ∀ p ∈ polls, ∀ evs, p.events = some evs →
      ∀ e ∈ evs, e.BlockNumber < 9223372036854775807) :
    List.Chain' (fun a b : Dumper =>
        a.blockNumber ≤ b.blockNumber ∧ persistedCursor a ≤ persistedCursor b)
      (runPolls (NewGRIDDumper stored readErr) polls) ∧
    ∀ s ∈ runPolls (NewGRIDDumper stored readErr) polls,
      persistedCursor s ≤ s.blockNumber := by
  have hz : isInt64 0 := by decide
  have hd : isInt64 (NewGRIDDumper stored readErr).blockNumber := by
    cases readErr with
    | true => simpa [NewGRIDDumper] using hz
    | false =>
      cases stored with
      | none => simpa [NewGRIDDumper] using hz
      | some c => simpa [NewGRIDDumper] using hs c rfl
  have hle : persistedCursor (NewGRIDDumper stored readErr) ≤
      (NewGRIDDumper stored readErr).blockNumber := by
    cases readErr with
    | true => simpa [persistedCursor, NewGRIDDumper] using hread rfl
    | false => simp [persistedCursor, NewGRIDDumper]
  have h := runPolls_mono polls (NewGRIDDumper stored readErr) hd hle hb
  exact ⟨h.1, h.2.1⟩

/-- Witness of C6: a stored cursor 3 read without error, then two polls, the
first stopped by a failing `AddNode` handler, the second run to the end with a
failing write. -/
theorem c6_cursors_monotone_witness :
    List.Chain' (fun a b : Dumper =>
        a.blockNumber ≤ b.blockNumber ∧ persistedCursor a ≤ persistedCursor b)
      (runPolls (NewGRIDDumper (some 3) false)
        [⟨some [⟨some .Register, 5, false, false, false⟩,
                ⟨some .AddNode, 6, true, false, false⟩], false⟩,
         ⟨some [⟨some .AddNode, 6, false, false, false⟩], true⟩]) ∧
    ∀ s ∈ runPolls (NewGRIDDumper (some 3) false)
        [⟨some [⟨some .Register, 5, false, false, false⟩,
                ⟨some .AddNode, 6, true, false, false⟩], false⟩,
         ⟨some [⟨some .AddNode, 6, false, false, false⟩], true⟩],
      persistedCursor s ≤ s.blockNumber :=
  c6_cursors_monotone (some 3) false
    [⟨some [⟨some .Register, 5, false, false, false⟩,
            ⟨some .AddNode, 6, true, false, false⟩], false⟩,
     ⟨some [⟨some .AddNode, 6, false, false, false⟩], true⟩]
    (by intro c h; cases h; decide) (by decide) (by decide)

/-- C7, the code at the failing input: a `CreateOrder` log in block 5 whose
handler returns an error is followed by a `Register` log in block 6; `DumpGRID`
still handles the `Register` log and moves the cursor past both, to 7. -/
theorem c7_create_order_error_does_not_stop :
    DumpGRID (NewGRIDDumper none false)
        ⟨some [⟨some .CreateOrder, 5, true, false, false⟩,
               ⟨some .Register, 6, false, false, false⟩], false⟩ =
      ⟨⟨7, some 7⟩,
        [⟨some .CreateOrder, 5, true, false, false⟩,
         ⟨some .Register, 6, false, false, false⟩], .finished⟩ := by
  decide

/-- C8, the code at the failing input: two logs of block 5, a `Register` that
is applied and an `AddNode` whose handler fails; the poll stops at the failing
log but leaves both cursors at 6, above the block of the log that was not
applied. -/
theorem c8_same_block_failure_is_skipped :
    DumpGRID (NewGRIDDumper none false)
        ⟨some [⟨some .Register, 5, false, false, false⟩,
               ⟨some .AddNode, 5, true, false, false⟩], false⟩ =
      ⟨⟨6, some 6⟩,
        [⟨some .Register, 5, false, false, false⟩,
         ⟨some .AddNode, 5, true, false, false⟩], .finished⟩ ∧
    ¬ ((5 : Int) ≥ (DumpGRID (NewGRIDDumper none false)
        ⟨some [⟨some .Register, 5, false, false, false⟩,
               ⟨some .AddNode, 5, true, false, false⟩], false⟩).dumper.blockNumber) := by
  decide

/-! ## Order creation -/

/-- C9, the code at the failing input: for `act = 1000`, `pro = 10`,
`dur = 100` the row handed to the database has activation time 1110, start
1120 and end 1220 (seconds), not 1000, 1010 and 1110; probation and duration
are 10 and 100. -/
theorem c9_create_order_times_are_shifted :
    HandleCreateOrder
        { Cp := "cp", Id := 1, Nid := 2, Act := 1000, Pro := 10, Dur := 100 } "user" =
      { User := "user", Provider := "cp", Id := 1, Nid := 2,
        ActivateTime := timeUnix 1110, StartTime := timeUnix 1120,
        EndTime := timeUnix 1220, Probation := 10, Duration := 100 } ∧
    timeUnix 1110 ≠ timeUnix 1000 := by
  decide

/-! ## Whole seconds of a duration (`int64(d.Seconds())`) -/

/-- Zero has no binary digits, whatever the fuel. -/
theorem bitLenAux_zero (fuel : Nat) : bitLenAux fuel 0 = 0 := by
  cases fuel <;> simp [bitLenAux]

/-- With enough fuel `bitLenAux` counts the binary digits: `n` is below
`2^len`, and a positive `n` is at least `2^(len-1)`. -/
theorem bitLenAux_spec : ∀ (fuel n : Nat), n < 2 ^ fuel →
    n < 2 ^ bitLenAux fuel n ∧ (0 < n → 2 ^ bitLenAux fuel n ≤ 2 * n) := by
  intro fuel
  induction fuel with
  | zero =>
    intro n h
    simp [bitLenAux]
    omega
  | succ k ih =>
    intro n h
    by_cases hn : n = 0
    · subst hn
      simp [bitLenAux]
    · simp only [bitLenAux, if_neg hn]
      have h2 : n / 2 < 2 ^ k := by
        rw [pow_succ] at h
        omega
      obtain ⟨i1, i2⟩ := ih (n / 2) h2
      refine ⟨by rw [pow_succ]; omega, fun _ => ?_⟩
      by_cases h3 : n / 2 = 0
      · rw [h3, bitLenAux_zero]
        omega
      · have := i2 (by omega)
        rw [pow_succ]
        omega

/-- The number of binary digits of a positive `n` below `2^128`. -/
theorem bitLen_spec (n : Nat) (h : n < 2 ^ 128) (hn : 0 < n) :
    n < 2 ^ bitLen n ∧ 2 ^ bitLen n ≤ 2 * n :=
  ⟨(bitLenAux_spec 128 n h).1, (bitLenAux_spec 128 n h).2 hn⟩

/-- The exponent `floorLog2Ratio` brackets the ratio: `2^e <= a / b < 2^(e+1)`. -/
theorem floorLog2Ratio_spec (a b : Nat) (ha : 0 < a) (hb : 0 < b)
    (ha2 : a < 2 ^ 128) (hb2 : b < 2 ^ 128) :
    (b : ℚ) * 2 ^ floorLog2Ratio a b ≤ a ∧ (a : ℚ) < b * 2 ^ (floorLog2Ratio a b + 1) := by
  obtain ⟨a1, a2⟩ := bitLen_spec a ha2 ha
  obtain ⟨b1, b2⟩ := bitLen_spec b hb2 hb
  have a1q : (a : ℚ) < 2 ^ bitLen a := by exact_mod_cast a1
  have a2q : (2 : ℚ) ^ bitLen a ≤ 2 * a := by exact_mod_cast a2
  have b1q : (b : ℚ) < 2 ^ bitLen b := by exact_mod_cast b1
  have b2q : (2 : ℚ) ^ bitLen b ≤ 2 * b := by exact_mod_cast b2
  have h2 : (2 : ℚ) ≠ 0 := two_ne_zero
  have he0 : (2 : ℚ) ^ ((bitLen a : ℤ) - (bitLen b : ℤ)) * 2 ^ bitLen b = 2 ^ bitLen a := by
    rw [zpow_sub₀ h2, zpow_natCast, zpow_natCast]
    field_simp
  have hT : (0 : ℚ) < 2 ^ ((bitLen a : ℤ) - (bitLen b : ℤ)) := zpow_pos (by norm_num) _
  have htest : (if 0 ≤ (bitLen a : ℤ) - (bitLen b : ℤ) then
        b * 2 ^ ((bitLen a : ℤ) - (bitLen b : ℤ)).toNat ≤ a
      else b ≤ a * 2 ^ (-((bitLen a : ℤ) - (bitLen b : ℤ))).toNat) ↔
      (b : ℚ) * 2 ^ ((bitLen a : ℤ) - (bitLen b : ℤ)) ≤ a := by
    generalize (bitLen a : ℤ) - (bitLen b : ℤ) = e0
    split
    · rename_i h
      obtain ⟨k, rfl⟩ := Int.eq_ofNat_of_zero_le h
      rw [Int.toNat_ofNat, zpow_natCast]
      norm_cast
    · rename_i h
      obtain ⟨k, rfl⟩ := Int.exists_eq_neg_ofNat (le_of_lt (not_le.mp h))
      rw [neg_neg, Int.toNat_ofNat, zpow_neg, zpow_natCast, ← div_eq_mul_inv,
        div_le_iff₀ (by positivity)]
      norm_cast
  have hb0 : (0 : ℚ) < b := by exact_mod_cast hb
  by_cases hh : (b : ℚ) * 2 ^ ((bitLen a : ℤ) - (bitLen b : ℤ)) ≤ a
  · have hdef : floorLog2Ratio a b = (bitLen a : ℤ) - (bitLen b : ℤ) := by
      unfold floorLog2Ratio
      exact if_pos (htest.mpr hh)
    rw [hdef]
    refine ⟨hh, ?_⟩
    rw [zpow_add₀ h2, zpow_one]
    clear ha2 hb2 a1 a2 b1 b2 htest
    generalize (2 : ℚ) ^ ((bitLen a : ℤ) - (bitLen b : ℤ)) = T at *
    nlinarith
  · have hdef : floorLog2Ratio a b = (bitLen a : ℤ) - (bitLen b : ℤ) - 1 := by
      unfold floorLog2Ratio
      exact if_neg (fun h => hh (htest.mp h))
    rw [hdef, sub_add_cancel]
    refine ⟨?_, not_le.mp hh⟩
    have e1 : (2 : ℚ) ^ ((bitLen a : ℤ) - (bitLen b : ℤ) - 1) =
        2 ^ ((bitLen a : ℤ) - (bitLen b : ℤ)) / 2 := by
      rw [zpow_sub₀ h2, zpow_one]
    rw [e1]
    clear ha2 hb2 a1 a2 b1 b2 htest
    generalize (2 : ℚ) ^ ((bitLen a : ℤ) - (bitLen b : ℤ)) = T at *
    rw [mul_div_assoc', div_le_iff₀ (by norm_num)]
    nlinarith

/-- The result of `divRoundEven` is within one half of the quotient, and even
at a tie. -/
theorem divRoundEven_nat (num den : Nat) (hd : 0 < den) :
    2 * (divRoundEven num den * den) ≤ 2 * num + den ∧
    2 * num ≤ 2 * (divRoundEven num den * den) + den ∧
    (2 * (divRoundEven num den * den) = 2 * num + den → divRoundEven num den % 2 = 0) ∧
    (2 * num = 2 * (divRoundEven num den * den) + den → divRoundEven num den % 2 = 0) := by
  have h1 := Nat.div_add_mod num den
  have h2 := Nat.mod_lt num hd
  unfold divRoundEven
  generalize num / den = q at *
  generalize num % den = r at *
  have e1 : (q + 1) * den = den * q + den := by ring
  have e2 : q * den = den * q := by ring
  generalize hdq : den * q = dq at *
  split_ifs <;> simp only [e1, e2] <;> omega

/-- The rational form of `divRoundEven_nat`. -/
theorem divRoundEven_spec (num den : Nat) (hd : 0 < den) :
    (divRoundEven num den : ℚ) ≤ (num : ℚ) / den + 1 / 2 ∧
    (num : ℚ) / den ≤ divRoundEven num den + 1 / 2 ∧
    ((divRoundEven num den : ℚ) = (num : ℚ) / den + 1 / 2 ∨
      (num : ℚ) / den = divRoundEven num den + 1 / 2 → divRoundEven num den % 2 = 0) := by
  obtain ⟨h1, h2, h3, h4⟩ := divRoundEven_nat num den hd
  have hdq : (0 : ℚ) < den := by exact_mod_cast hd
  have h1q : 2 * ((divRoundEven num den : ℚ) * den) ≤ 2 * num + den := by exact_mod_cast h1
  have h2q : 2 * (num : ℚ) ≤ 2 * ((divRoundEven num den : ℚ) * den) + den := by exact_mod_cast h2
  generalize divRoundEven num den = m at *
  refine ⟨?_, ?_, ?_⟩
  · rw [← sub_le_iff_le_add, le_div_iff₀ hdq]
    linarith
  · rw [div_le_iff₀ hdq]
    linarith
  · rintro (h | h)
    · apply h3
      have : (m : ℚ) * den = num + den / 2 := by
        rw [h]; field_simp; ring
      have h5 : 2 * ((m : ℚ) * den) = 2 * num + den := by rw [this]; ring
      exact_mod_cast h5
    · apply h4
      have : (num : ℚ) = (m + 1 / 2) * den := by
        rw [← h]; field_simp
      have h5 : 2 * (num : ℚ) = 2 * ((m : ℚ) * den) + den := by rw [this]; ring
      exact_mod_cast h5

/-- Rounding to the nearest integer, ties to even, is monotone. -/
theorem roundEven_mono (m n : Nat) (y z : ℚ) (h : y ≤ z)
    (m1 : (m : ℚ) ≤ y + 1 / 2) (m3 : (m : ℚ) = y + 1 / 2 → m % 2 = 0)
    (n2 : z ≤ n + 1 / 2) (n3 : z = n + 1 / 2 → n % 2 = 0) : m ≤ n := by
  by_contra hc
  have h1 : n + 1 ≤ m := by omega
  have h1q : (n : ℚ) + 1 ≤ m := by exact_mod_cast h1
  have e1 : (m : ℚ) = y + 1 / 2 := by linarith
  have e2 : z = n + 1 / 2 := by linarith
  have e3 : (m : ℚ) = n + 1 := by linarith
  have e4 : m = n + 1 := by exact_mod_cast e3
  have := m3 e1
  have := n3 e2
  omega

/-- The exponent of `roundF64`, and its mantissa as a rounded quotient that
equals the ratio scaled by `2^(52-e)`. -/
theorem roundF64_mantissa (a b : Nat) (ha : 0 < a) (hb : 0 < b) :
    (roundF64 a b).e = floorLog2Ratio a b - 52 ∧
    ∃ N D : Nat, 0 < D ∧ (roundF64 a b).m = divRoundEven N D ∧
      (N : ℚ) / D = (a : ℚ) / b * 2 ^ (52 - floorLog2Ratio a b) := by
  have hne : a ≠ 0 := by omega
  unfold roundF64
  rw [if_neg hne]
  simp only []
  refine ⟨trivial, ?_⟩
  generalize 52 - floorLog2Ratio a b = s
  by_cases h : 0 ≤ s
  · rw [if_pos h]
    obtain ⟨k, rfl⟩ := Int.eq_ofNat_of_zero_le h
    refine ⟨a * 2 ^ k, b, hb, by rw [Int.toNat_ofNat], ?_⟩
    rw [zpow_natCast]
    push_cast
    ring
  · rw [if_neg h]
    obtain ⟨k, rfl⟩ := Int.exists_eq_neg_ofNat (le_of_lt (not_le.mp h))
    refine ⟨a, b * 2 ^ k, by positivity, by rw [neg_neg, Int.toNat_ofNat], ?_⟩
    have hb0 : (b : ℚ) ≠ 0 := by exact_mod_cast (by omega : b ≠ 0)
    rw [zpow_neg, zpow_natCast]
    push_cast
    field_simp

/-- The mantissa of `roundF64` is the ratio scaled into `[2^52, 2^53)` and
rounded to the nearest integer, ties to even. -/
theorem roundF64_spec (a b : Nat) (ha : 0 < a) (hb : 0 < b)
    (ha2 : a < 2 ^ 128) (hb2 : b < 2 ^ 128) :
    ((roundF64 a b).m : ℚ) ≤ (a : ℚ) / b * 2 ^ (-(roundF64 a b).e) + 1 / 2 ∧
    (a : ℚ) / b * 2 ^ (-(roundF64 a b).e) ≤ (roundF64 a b).m + 1 / 2 ∧
    (((roundF64 a b).m : ℚ) = (a : ℚ) / b * 2 ^ (-(roundF64 a b).e) + 1 / 2 ∨
      (a : ℚ) / b * 2 ^ (-(roundF64 a b).e) = (roundF64 a b).m + 1 / 2 →
        (roundF64 a b).m % 2 = 0) ∧
    (2 : ℚ) ^ 52 ≤ (a : ℚ) / b * 2 ^ (-(roundF64 a b).e) ∧
    (a : ℚ) / b * 2 ^ (-(roundF64 a b).e) < 2 ^ 53 := by
  obtain ⟨he, N, D, hD, hm, hr⟩ := roundF64_mantissa a b ha hb
  obtain ⟨l1, l2⟩ := floorLog2Ratio_spec a b ha hb ha2 hb2
  obtain ⟨d1, d2, d3⟩ := divRoundEven_spec N D hD
  rw [he, hm, neg_sub, ← hr]
  clear ha2 hb2
  have e52 : (2 : ℚ) ^ (52 : ℤ) = 2 ^ 52 := by norm_cast
  refine ⟨d1, d2, d3, ?_, ?_⟩
  · rw [hr]
    have hb0 : (0 : ℚ) < b := by exact_mod_cast hb
    have hT : (0 : ℚ) < 2 ^ floorLog2Ratio a b := zpow_pos (by norm_num) _
    rw [zpow_sub₀ two_ne_zero]
    generalize (2 : ℚ) ^ floorLog2Ratio a b = T at *
    have : (a : ℚ) / b * (2 ^ (52 : ℤ) / T) = (a : ℚ) / (b * T) * 2 ^ 52 := by
      rw [e52]
      field_simp
    rw [this]
    have h1 : 1 ≤ (a : ℚ) / (b * T) := by
      rw [le_div_iff₀ (by positivity)]
      linarith
    exact le_mul_of_one_le_left (by positivity) h1
  · rw [hr]
    have hb0 : (0 : ℚ) < b := by exact_mod_cast hb
    have hT : (0 : ℚ) < 2 ^ floorLog2Ratio a b := zpow_pos (by norm_num) _
    rw [zpow_add₀ two_ne_zero, zpow_one] at l2
    rw [zpow_sub₀ two_ne_zero]
    generalize (2 : ℚ) ^ floorLog2Ratio a b = T at *
    have : (a : ℚ) / b * (2 ^ (52 : ℤ) / T) = (a : ℚ) / (b * T) * 2 ^ 52 := by
      rw [e52]
      field_simp
    rw [this]
    have h1 : (a : ℚ) / (b * T) < 2 := by
      rw [div_lt_iff₀ (by positivity)]
      linarith
    have e53 : (2 : ℚ) ^ 53 = 2 * 2 ^ 52 := by norm_num
    rw [e53]
    exact mul_lt_mul_of_pos_right h1 (by positivity)

/-- The ratio zero rounds to zero. -/
theorem roundF64_zero (b : Nat) : roundF64 0 b = ⟨0, 0⟩ := by
  simp [roundF64]

/-- The mantissa of a positive ratio has 53 bits (or is `2^53` after a
round-up at the top of a binade). -/
theorem roundF64_mantissa_bounds (a b : Nat) (ha : 0 < a) (hb : 0 < b)
    (ha2 : a < 2 ^ 128) (hb2 : b < 2 ^ 128) :
    2 ^ 52 ≤ (roundF64 a b).m ∧ (roundF64 a b).m ≤ 2 ^ 53 := by
  obtain ⟨s1, s2, -, s4, s5⟩ := roundF64_spec a b ha hb ha2 hb2
  clear ha2 hb2
  generalize (a : ℚ) / b * 2 ^ (-(roundF64 a b).e) = y at *
  generalize (roundF64 a b).m = m at *
  constructor
  · have h : ((2 ^ 52 - 1 : ℕ) : ℚ) < m := by
      push_cast
      linarith
    have := Nat.cast_lt.mp h
    omega
  · have h : (m : ℚ) < ((2 ^ 53 + 1 : ℕ) : ℚ) := by
      push_cast
      linarith
    have := Nat.cast_lt.mp h
    omega

/-- Rounding to `float64` is monotone in the ratio. -/
theorem roundF64_mono (a b c d : Nat) (hb : 0 < b) (hd : 0 < d)
    (ha2 : a < 2 ^ 128) (hb2 : b < 2 ^ 128) (hc2 : c < 2 ^ 128) (hd2 : d < 2 ^ 128)
    (h : (a : ℚ) / b ≤ (c : ℚ) / d) :
    ((roundF64 a b).m : ℚ) * 2 ^ (roundF64 a b).e ≤
      ((roundF64 c d).m : ℚ) * 2 ^ (roundF64 c d).e := by
  by_cases ha : a = 0
  · subst ha
    rw [roundF64_zero]
    simp only [Nat.cast_zero, zero_mul]
    positivity
  have ha0 : 0 < a := by omega
  have hbq : (0 : ℚ) < b := by exact_mod_cast hb
  have hdq : (0 : ℚ) < d := by exact_mod_cast hd
  have haq : (0 : ℚ) < a := by exact_mod_cast ha0
  have hc0 : 0 < c := by
    rcases Nat.eq_zero_or_pos c with h0 | h0
    · subst h0
      have : (0 : ℚ) < (a : ℚ) / b := by positivity
      simp at h
      linarith
    · exact h0
  obtain ⟨p1, p2, p3, p4, p5⟩ := roundF64_spec a b ha0 hb ha2 hb2
  obtain ⟨q1, q2, q3, q4, q5⟩ := roundF64_spec c d hc0 hd hc2 hd2
  obtain ⟨pm1, pm2⟩ := roundF64_mantissa_bounds a b ha0 hb ha2 hb2
  obtain ⟨qm1, qm2⟩ := roundF64_mantissa_bounds c d hc0 hd hc2 hd2
  have pm2q : ((roundF64 a b).m : ℚ) ≤ 2 ^ 53 := by exact_mod_cast pm2
  have qm1q : (2 : ℚ) ^ 52 ≤ ((roundF64 c d).m : ℚ) := by exact_mod_cast qm1
  clear ha2 hb2 hc2 hd2 pm1 pm2 qm1 qm2
  have hT1 : (0 : ℚ) < 2 ^ (roundF64 a b).e := zpow_pos (by norm_num) _
  have hT2 : (0 : ℚ) < 2 ^ (roundF64 c d).e := zpow_pos (by norm_num) _
  rw [zpow_neg] at p1 p2 p3 p4 p5 q1 q2 q3 q4 q5
  have hle : (roundF64 a b).e ≤ (roundF64 c d).e := by
    by_contra hc
    have h1 : (roundF64 c d).e + 1 ≤ (roundF64 a b).e := by omega
    have h2 : (2 : ℚ) ^ ((roundF64 c d).e + 1) ≤ 2 ^ (roundF64 a b).e :=
      zpow_le_zpow_right₀ (by norm_num) h1
    rw [zpow_add₀ two_ne_zero, zpow_one] at h2
    generalize (2 : ℚ) ^ (roundF64 a b).e = T1 at *
    generalize (2 : ℚ) ^ (roundF64 c d).e = T2 at *
    rw [← div_eq_mul_inv, le_div_iff₀ hT1] at p4
    rw [← div_eq_mul_inv, div_lt_iff₀ hT2] at q5
    have e53 : (2 : ℚ) ^ 53 = 2 * 2 ^ 52 := by norm_num
    rw [e53] at q5
    have hK : (0 : ℚ) < 2 ^ 52 := by positivity
    generalize (2 : ℚ) ^ 52 = K at *
    nlinarith
  rcases eq_or_lt_of_le hle with he | hlt
  · rw [← he] at q1 q2 q3 q4 q5 ⊢
    have hm : (roundF64 a b).m ≤ (roundF64 c d).m := by
      apply roundEven_mono _ _ _ _ _ p1 (fun hh => p3 (Or.inl hh)) q2 (fun hh => q3 (Or.inr hh))
      exact mul_le_mul_of_nonneg_right h (le_of_lt (inv_pos.mpr hT1))
    have hmq : ((roundF64 a b).m : ℚ) ≤ (roundF64 c d).m := by exact_mod_cast hm
    exact mul_le_mul_of_nonneg_right hmq (le_of_lt hT1)
  · have h1 : (roundF64 a b).e + 1 ≤ (roundF64 c d).e := by omega
    have h2 : (2 : ℚ) ^ ((roundF64 a b).e + 1) ≤ 2 ^ (roundF64 c d).e :=
      zpow_le_zpow_right₀ (by norm_num) h1
    rw [zpow_add₀ two_ne_zero, zpow_one] at h2
    generalize (2 : ℚ) ^ (roundF64 a b).e = T1 at *
    generalize (2 : ℚ) ^ (roundF64 c d).e = T2 at *
    have e53 : (2 : ℚ) ^ 53 = 2 * 2 ^ 52 := by norm_num
    rw [e53] at pm2q
    have hK : (0 : ℚ) < 2 ^ 52 := by positivity
    generalize (2 : ℚ) ^ 52 = K at *
    generalize ((roundF64 a b).m : ℚ) = m1 at *
    generalize ((roundF64 c d).m : ℚ) = m2 at *
    calc m1 * T1 ≤ 2 * K * T1 := mul_le_mul_of_nonneg_right pm2q (le_of_lt hT1)
      _ = K * (T1 * 2) := by ring
      _ ≤ K * T2 := mul_le_mul_of_nonneg_left h2 (le_of_lt hK)
      _ ≤ m2 * T2 := mul_le_mul_of_nonneg_right qm1q (le_of_lt hT2)

/-- The conversion `truncF64` is the floor of the value. -/
theorem truncF64_spec (f : F64) :
    (truncF64 f : ℚ) ≤ (f.m : ℚ) * 2 ^ f.e ∧ (f.m : ℚ) * 2 ^ f.e < truncF64 f + 1 := by
  unfold truncF64
  generalize f.e = e
  generalize f.m = m
  by_cases h : 0 ≤ e
  · rw [if_pos h]
    obtain ⟨k, rfl⟩ := Int.eq_ofNat_of_zero_le h
    rw [Int.toNat_ofNat, zpow_natCast]
    push_cast
    constructor
    · exact le_refl _
    · linarith
  · rw [if_neg h]
    obtain ⟨k, rfl⟩ := Int.exists_eq_neg_ofNat (le_of_lt (not_le.mp h))
    rw [neg_neg, Int.toNat_ofNat, zpow_neg, zpow_natCast, ← div_eq_mul_inv]
    have hp : (0 : ℚ) < 2 ^ k := by positivity
    have h1 := Nat.div_add_mod m (2 ^ k)
    have h2 := Nat.mod_lt m (by positivity : 0 < 2 ^ k)
    have h1q : ((2 ^ k * (m / 2 ^ k) + m % 2 ^ k : ℕ) : ℚ) = m := by rw [h1]
    have h2q : ((m % 2 ^ k : ℕ) : ℚ) < ((2 ^ k : ℕ) : ℚ) := Nat.cast_lt.mpr h2
    push_cast at h1q h2q
    constructor
    · rw [le_div_iff₀ hp]
      nlinarith
    · rw [div_lt_iff₀ hp]
      nlinarith

/-- The quotient `nsec / 1e9` for `nsec` below `10^9` is zero or has an
exponent between `-82` and `-1`. -/
theorem roundF64_nsec (nsec : Nat) (hn : nsec < 1000000000) :
    roundF64 nsec 1000000000 = ⟨0, 0⟩ ∨
      (-82 ≤ (roundF64 nsec 1000000000).e ∧ (roundF64 nsec 1000000000).e < 0 ∧
        (roundF64 nsec 1000000000).m ≤ 2 ^ 53) := by
  by_cases h0 : nsec = 0
  · left
    rw [h0, roundF64_zero]
  right
  have hpos : 0 < nsec := by omega
  have hb2 : nsec < 2 ^ 128 := lt_trans hn (by norm_num)
  obtain ⟨-, -, -, s4, s5⟩ := roundF64_spec nsec 1000000000 hpos (by norm_num) hb2 (by norm_num)
  obtain ⟨-, m2⟩ := roundF64_mantissa_bounds nsec 1000000000 hpos (by norm_num) hb2
    (by norm_num)
  have hnq : (nsec : ℚ) < 1000000000 := by exact_mod_cast hn
  have h1q : (1 : ℚ) ≤ nsec := by exact_mod_cast hpos
  clear hb2
  generalize (roundF64 nsec 1000000000).e = e at *
  generalize (roundF64 nsec 1000000000).m = m at *
  have hT : (0 : ℚ) < 2 ^ (-e) := zpow_pos (by norm_num) _
  refine ⟨?_, ?_, m2⟩
  · -- 2^(-e) / 10^9 <= x * 2^(-e) < 2^53, so 2^(-e) < 2^83
    by_contra hc
    have h1 : (83 : ℤ) ≤ -e := by omega
    have h2 : (2 : ℚ) ^ (83 : ℤ) ≤ 2 ^ (-e) := zpow_le_zpow_right₀ (by norm_num) h1
    have e83 : (2 : ℚ) ^ (83 : ℤ) = 2 ^ 53 * 1073741824 := by norm_num
    rw [e83] at h2
    have hK : (0 : ℚ) < 2 ^ 53 := by positivity
    generalize (2 : ℚ) ^ 53 = K at *
    generalize (2 : ℚ) ^ (-e) = T at *
    have h3 : (nsec : ℚ) / 1000000000 * T * 1000000000 = nsec * T := by field_simp
    nlinarith
  · -- 2^52 <= x * 2^(-e) < 2^(-e)
    by_contra hc
    have h1 : -e ≤ (0 : ℤ) := by omega
    have h2 : (2 : ℚ) ^ (-e) ≤ 2 ^ (0 : ℤ) := zpow_le_zpow_right₀ (by norm_num) h1
    rw [zpow_zero] at h2
    have hK : (1 : ℚ) ≤ 2 ^ 52 := one_le_pow₀ (by norm_num)
    generalize (2 : ℚ) ^ 52 = K at *
    generalize (2 : ℚ) ^ (-e) = T at *
    have h3 : (nsec : ℚ) / 1000000000 * T * 1000000000 = nsec * T := by field_simp
    nlinarith

/-- The sum `addNatF64` is the exact sum rounded once, with numerator and
denominator below `2^128`. -/
theorem addNatF64_ratio (n : Nat) (f : F64) (hn : n < 2 ^ 34)
    (hf : f = ⟨0, 0⟩ ∨ (-82 ≤ f.e ∧ f.e < 0 ∧ f.m ≤ 2 ^ 53)) :
    ∃ A B : Nat, 0 < B ∧ A < 2 ^ 128 ∧ B < 2 ^ 128 ∧
      (A : ℚ) / B = n + (f.m : ℚ) * 2 ^ f.e ∧ addNatF64 n f = roundF64 A B := by
  rcases hf with hf | ⟨h1, h2, h3⟩
  · subst hf
    refine ⟨n, 1, by norm_num, lt_trans hn (by norm_num), by norm_num, by simp, ?_⟩
    simp [addNatF64]
  · obtain ⟨m, e⟩ := f
    simp only at h1 h2 h3 ⊢
    obtain ⟨k, rfl⟩ := Int.exists_eq_neg_ofNat (le_of_lt h2)
    have hk : k ≤ 82 := by omega
    have hp : 2 ^ k ≤ 2 ^ 82 := Nat.pow_le_pow_right (by norm_num) hk
    have hnk : n * 2 ^ k ≤ 2 ^ 34 * 2 ^ 82 := Nat.mul_le_mul (le_of_lt hn) hp
    refine ⟨n * 2 ^ k + m, 2 ^ k, by positivity, ?_, ?_, ?_, ?_⟩
    · have e1 : (2 : ℕ) ^ 34 * 2 ^ 82 + 2 ^ 53 < 2 ^ 128 := by norm_num
      omega
    · exact lt_of_le_of_lt hp (by norm_num)
    · rw [zpow_neg, zpow_natCast]
      push_cast
      field_simp
    · unfold addNatF64
      have hneg : ¬ (0 : ℤ) ≤ -(k : ℤ) := by omega
      simp only [if_neg hneg, neg_neg, Int.toNat_ofNat]

/-- The ratio one rounds to `2^52 * 2^-52`. -/
theorem roundF64_one : roundF64 1 1 = ⟨4503599627370496, -52⟩ := by decide

/-- The quotient `nsec / 1e9` is at most 1 after rounding. -/
theorem roundF64_nsec_le_one (nsec : Nat) (hn : nsec < 1000000000) :
    ((roundF64 nsec 1000000000).m : ℚ) * 2 ^ (roundF64 nsec 1000000000).e ≤ 1 := by
  have h := roundF64_mono nsec 1000000000 1 1 (by norm_num) (by norm_num)
    (lt_trans hn (by norm_num)) (by norm_num) (by norm_num) (by norm_num)
    (by
      have hnq : (nsec : ℚ) < 1000000000 := by exact_mod_cast hn
      rw [div_le_iff₀ (by norm_num)]
      push_cast
      linarith)
  rw [roundF64_one] at h
  have e1 : ((4503599627370496 : ℕ) : ℚ) * 2 ^ (-52 : ℤ) = 1 := by
    rw [zpow_neg]
    norm_num
  simp only [] at h
  rw [e1] at h
  exact h

/-- The conversion `secondsAbs` is monotone in `(sec, nsec)` ordered
lexicographically. -/
theorem secondsAbs_mono (s1 n1 s2 n2 : Nat) (hs2 : s2 < 2 ^ 34)
    (hn1 : n1 < 1000000000) (hn2 : n2 < 1000000000)
    (h : s1 < s2 ∨ (s1 = s2 ∧ n1 ≤ n2)) :
    secondsAbs s1 n1 ≤ secondsAbs s2 n2 := by
  have hs1 : s1 < 2 ^ 34 := by omega
  obtain ⟨A1, B1, hB1, hA1, hB1', r1, e1⟩ :=
    addNatF64_ratio s1 _ hs1 (roundF64_nsec n1 hn1)
  obtain ⟨A2, B2, hB2, hA2, hB2', r2, e2⟩ :=
    addNatF64_ratio s2 _ hs2 (roundF64_nsec n2 hn2)
  have hsum : (A1 : ℚ) / B1 ≤ (A2 : ℚ) / B2 := by
    rw [r1, r2]
    rcases h with h | ⟨h, h'⟩
    · have l1 := roundF64_nsec_le_one n1 hn1
      have l2 : (0 : ℚ) ≤ ((roundF64 n2 1000000000).m : ℚ) * 2 ^ (roundF64 n2 1000000000).e := by
        positivity
      have hq : (s1 : ℚ) + 1 ≤ s2 := by exact_mod_cast h
      linarith
    · subst h
      have := roundF64_mono n1 1000000000 n2 1000000000 (by norm_num) (by norm_num)
        (lt_trans hn1 (by norm_num)) (by norm_num) (lt_trans hn2 (by norm_num)) (by norm_num)
        (by
          have hq : (n1 : ℚ) ≤ n2 := by exact_mod_cast h'
          exact div_le_div_of_nonneg_right hq (by norm_num))
      linarith
  have hv := roundF64_mono A1 B1 A2 B2 hB1 hB2 hA1 hB1' hA2 hB2' hsum
  unfold secondsAbs
  rw [e1, e2]
  obtain ⟨t1, t2⟩ := truncF64_spec (roundF64 A1 B1)
  obtain ⟨u1, u2⟩ := truncF64_spec (roundF64 A2 B2)
  have hlt : (truncF64 (roundF64 A1 B1) : ℚ) < truncF64 (roundF64 A2 B2) + 1 := by linarith
  have : truncF64 (roundF64 A1 B1) < truncF64 (roundF64 A2 B2) + 1 := by exact_mod_cast hlt
  omega

/-- A whole number of seconds is converted exactly. -/
theorem secondsAbs_whole (w : Nat) (hw : w < 2 ^ 34) : secondsAbs w 0 = w := by
  unfold secondsAbs
  rw [roundF64_zero]
  have e0 : addNatF64 w ⟨0, 0⟩ = roundF64 w 1 := by simp [addNatF64]
  rw [e0]
  by_cases h0 : w = 0
  · subst h0
    rw [roundF64_zero]
    simp [truncF64]
  have hpos : 0 < w := by omega
  have hw2 : w < 2 ^ 128 := lt_trans hw (by norm_num)
  obtain ⟨he, N, D, hD, hm, hr⟩ := roundF64_mantissa w 1 hpos (by norm_num)
  obtain ⟨l1, l2⟩ := floorLog2Ratio_spec w 1 hpos (by norm_num) hw2 (by norm_num)
  obtain ⟨t1, t2⟩ := truncF64_spec (roundF64 w 1)
  -- the exponent is at most 33, so the mantissa is `w` shifted left
  have hle : floorLog2Ratio w 1 ≤ 52 := by
    by_contra hc
    have h1 : (53 : ℤ) ≤ floorLog2Ratio w 1 := by omega
    have h2 : (2 : ℚ) ^ (53 : ℤ) ≤ 2 ^ floorLog2Ratio w 1 := zpow_le_zpow_right₀ (by norm_num) h1
    have hwq : (w : ℚ) < 2 ^ 34 := by exact_mod_cast hw
    have e53 : (2 : ℚ) ^ (53 : ℤ) = 2 ^ 34 * 524288 := by norm_num
    rw [e53] at h2
    have hK : (0 : ℚ) < 2 ^ 34 := by positivity
    generalize (2 : ℚ) ^ 34 = K at *
    push_cast at l1
    linarith
  have hval : ((roundF64 w 1).m : ℚ) * 2 ^ (roundF64 w 1).e = w := by
    have hne : w ≠ 0 := h0
    have hm2 : (roundF64 w 1).m = w * 2 ^ (52 - floorLog2Ratio w 1).toNat := by
      unfold roundF64
      rw [if_neg hne]
      simp only []
      rw [if_pos (by omega)]
      simp [divRoundEven, Nat.mod_one]
    rw [hm2, he]
    obtain ⟨k, hk⟩ := Int.eq_ofNat_of_zero_le (by omega : 0 ≤ 52 - floorLog2Ratio w 1)
    have hk2 : floorLog2Ratio w 1 - 52 = -(k : ℤ) := by omega
    rw [hk, hk2, Int.toNat_ofNat, zpow_neg, zpow_natCast]
    push_cast
    field_simp
  rw [hval] at t1 t2
  have a1 : truncF64 (roundF64 w 1) ≤ w := by exact_mod_cast t1
  have a2 : w < truncF64 (roundF64 w 1) + 1 := by exact_mod_cast t2
  omega

/-- The conversion `seconds` on a non-negative duration. -/
theorem seconds_ofNat (n : Nat) :
    seconds (n : ℤ) = (secondsAbs (n / 1000000000) (n % 1000000000) : ℤ) := by
  unfold seconds
  have h : ¬ (n : ℤ) < 0 := by omega
  have e1 : Int.tdiv (n : ℤ) 1000000000 = ((n / 1000000000 : ℕ) : ℤ) :=
    (Int.ofNat_tdiv n 1000000000).symm
  have e2 : Int.tmod (n : ℤ) 1000000000 = ((n % 1000000000 : ℕ) : ℤ) :=
    (Int.ofNat_tmod n 1000000000).symm
  rw [if_neg h, e1, e2, Int.natAbs_ofNat, Int.natAbs_ofNat]

/-- The conversion `seconds` on a negative duration. -/
theorem seconds_neg_ofNat (n : Nat) (hn : 0 < n) :
    seconds (-(n : ℤ)) = -(secondsAbs (n / 1000000000) (n % 1000000000) : ℤ) := by
  unfold seconds
  have h : -(n : ℤ) < 0 := by omega
  have e1 : Int.tdiv (n : ℤ) 1000000000 = ((n / 1000000000 : ℕ) : ℤ) :=
    (Int.ofNat_tdiv n 1000000000).symm
  have e2 : Int.tmod (n : ℤ) 1000000000 = ((n % 1000000000 : ℕ) : ℤ) :=
    (Int.ofNat_tmod n 1000000000).symm
  have e3 : Int.tmod (-(n : ℤ)) 1000000000 = -Int.tmod (n : ℤ) 1000000000 := by
    rw [Int.tmod_def, Int.tmod_def, Int.neg_tdiv]
    ring
  rw [if_pos h, Int.neg_tdiv, e3, e1, e2, Int.natAbs_neg, Int.natAbs_neg,
    Int.natAbs_ofNat, Int.natAbs_ofNat]

/-- A non-negative duration has non-negative whole seconds. -/
theorem seconds_nonneg (d : Int) (h : 0 ≤ d) : 0 ≤ seconds d := by
  obtain ⟨n, rfl⟩ := Int.eq_ofNat_of_zero_le h
  rw [seconds_ofNat]
  exact Int.ofNat_nonneg _

/-- The conversion `seconds` is monotone on non-negative durations up to
`2^63` ns. -/
theorem seconds_mono (d1 d2 : Int) (h0 : 0 ≤ d1) (h : d1 ≤ d2)
    (h2 : d2 ≤ 9223372036854775808) : seconds d1 ≤ seconds d2 := by
  obtain ⟨n1, rfl⟩ := Int.eq_ofNat_of_zero_le h0
  obtain ⟨n2, rfl⟩ := Int.eq_ofNat_of_zero_le (le_trans h0 h)
  rw [seconds_ofNat, seconds_ofNat]
  have hn : n1 ≤ n2 := by omega
  have hn2 : n2 ≤ 9223372036854775808 := by omega
  have := secondsAbs_mono (n1 / 1000000000) (n1 % 1000000000) (n2 / 1000000000)
    (n2 % 1000000000) (by norm_num; omega) (Nat.mod_lt _ (by norm_num))
    (Nat.mod_lt _ (by norm_num)) (by omega)
  exact_mod_cast this

/-- Whole seconds of a whole number of seconds (any `int64` duration that is
a multiple of a second). -/
theorem seconds_mul (w : Int) (h1 : -17179869184 < w) (h2 : w < 17179869184) :
    seconds (w * 1000000000) = w := by
  rcases le_or_lt 0 w with h | h
  · obtain ⟨n, rfl⟩ := Int.eq_ofNat_of_zero_le h
    have e : ((n : ℤ) * 1000000000) = ((n * 1000000000 : ℕ) : ℤ) := by push_cast; rfl
    rw [e, seconds_ofNat, Nat.mul_div_cancel _ (by norm_num), Nat.mul_mod_left,
      secondsAbs_whole n (by norm_num; omega)]
  · obtain ⟨n, rfl⟩ := Int.exists_eq_neg_ofNat (le_of_lt h)
    have e : (-(n : ℤ) * 1000000000) = -((n * 1000000000 : ℕ) : ℤ) := by push_cast; ring
    rw [e, seconds_neg_ofNat _ (by omega), Nat.mul_div_cancel _ (by norm_num),
      Nat.mul_mod_left, secondsAbs_whole n (by norm_num; omega)]

set_option maxRecDepth 100000 in
/-- The whole seconds of `2^63` ns. -/
theorem seconds_max : seconds 9223372036854775808 = 9223372036 := by decide

/-- Whole seconds of an `int64` duration stay below `2^63 / 10^9`. -/
theorem seconds_bound (d : Int) (h : isInt64 d) :
    -9223372037 < seconds d ∧ seconds d < 9223372037 := by
  unfold isInt64 at h
  rcases le_or_lt 0 d with h0 | h0
  · have a := seconds_nonneg d h0
    have b := seconds_mono d 9223372036854775808 h0 (by omega) (le_refl _)
    rw [seconds_max] at b
    omega
  · obtain ⟨n, rfl⟩ := Int.exists_eq_neg_ofNat (le_of_lt h0)
    have hn : 0 < n := by omega
    rw [seconds_neg_ofNat n hn, ← seconds_ofNat]
    have a := seconds_nonneg (n : ℤ) (by omega)
    have b := seconds_mono (n : ℤ) 9223372036854775808 (by omega) (by omega) (le_refl _)
    rw [seconds_max] at b
    omega

set_option maxRecDepth 100000 in
/-- The conversion differs from the truncated quotient: 16777216.999999999 s
and 4611686018.999999999 s are rounded up to the next second; -1.5 s gives -1
and 120 s gives 120. -/
theorem seconds_examples :
    seconds 16777216999999999 = 16777217 ∧ seconds 4611686018999999999 = 4611686019 ∧
      seconds (-1500000000) = -1 ∧ seconds 120000000000 = 120 := by
  decide

/-! ## Phase waits -/

/-- The truncated remainder by a positive modulus lies strictly between
`-c` and `c`. -/
theorem tmod_bounds (a c : Int) (hc : 0 < c) : -c < Int.tmod a c ∧ Int.tmod a c < c := by
  refine ⟨?_, Int.tmod_lt_of_pos a hc⟩
  rcases le_total 0 a with h | h
  · have := Int.tmod_nonneg c h
    omega
  · have h1 : Int.tmod a c = -Int.tmod (-a) c := by
      rw [Int.tmod_def, Int.tmod_def, Int.neg_tdiv]
      ring
    have h2 := Int.tmod_lt_of_pos (-a) hc
    omega

/-- A value strictly between `-c` and `c` is its own truncated remainder. -/
theorem tmod_small (a c : Int) (h1 : -c < a) (h2 : a < c) : Int.tmod a c = a := by
  rcases le_total 0 a with h | h
  · exact Int.tmod_eq_of_lt h h2
  · have h3 : Int.tmod a c = -Int.tmod (-a) c := by
      rw [Int.tmod_def, Int.tmod_def, Int.neg_tdiv]
      ring
    rw [h3, Int.tmod_eq_of_lt (by omega) (by omega)]
    omega

/-- C10 as stated fails: with `prepareInterval` = 9 000 000 000 s (prove and
wait intervals 0, so `cycleLength` = 9 000 000 000 s > 0), anchor
9 700 000 000 and clock 1 700 000 000 (`now < lastAnchor`), the first wait is
0 and the second is 17 000 000 000 s, which overflows `time.Duration`: the
wait returned is negative. -/
theorem c10_counterexample_duration_overflow :
    challengeCycleSeconds ⟨9700000000, 9000000000000000000, 0, 0⟩ = 9000000000 ∧
      CalculateWatingToPrepare ⟨9700000000, 9000000000000000000, 0, 0⟩ 1700000000 =
        some ⟨⟨9700000000, 9000000000000000000, 0, 0⟩, 0, 18700000000⟩ ∧
      CalculateWatingToProve ⟨9700000000, 9000000000000000000, 0, 0⟩
          (wrap64 (1700000000 + seconds 0)) =
        some ⟨⟨9700000000, 9000000000000000000, 0, 0⟩, -1446744073709551616,
          18700000000⟩ := by
  decide

/-- With a non-zero cycle `CalculateWatingToProve` returns, and its wait is
the one of the three-way branch on the offset. -/
theorem CalculateWatingToProve_wait (v : GRIDValidator) (now : Int)
    (hc : challengeCycleSeconds v ≠ 0) :
    ∃ r, CalculateWatingToProve v now = some r ∧
      r.wait = wrap64 ((if Int.tmod (wrap64 (now - v.last)) (challengeCycleSeconds v) <
            seconds v.prepareInterval then
          wrap64 (seconds v.prepareInterval -
            Int.tmod (wrap64 (now - v.last)) (challengeCycleSeconds v))
        else if Int.tmod (wrap64 (now - v.last)) (challengeCycleSeconds v) >
            seconds (wrap64 (v.prepareInterval + v.proveInterval)) then
          wrap64 (wrap64 (challengeCycleSeconds v + seconds v.prepareInterval) -
            Int.tmod (wrap64 (now - v.last)) (challengeCycleSeconds v))
        else 0) * 1000000000) := by
  simp [CalculateWatingToProve, rem64, hc]

/-- With a non-zero cycle `CalculateWatingToPrepare` returns; its wait is the
one of the branch on the offset, and the anchor is snapped to `now - offset`
with the intervals unchanged. -/
theorem CalculateWatingToPrepare_wait (v : GRIDValidator) (now : Int)
    (hc : challengeCycleSeconds v ≠ 0) :
    ∃ r, CalculateWatingToPrepare v now = some r ∧
      r.wait = wrap64 ((if Int.tmod (wrap64 (now - v.last)) (challengeCycleSeconds v) ≥
            seconds v.prepareInterval then
          wrap64 (challengeCycleSeconds v -
            Int.tmod (wrap64 (now - v.last)) (challengeCycleSeconds v))
        else 0) * 1000000000) ∧
      r.v = { v with last := wrap64 (now -
        Int.tmod (wrap64 (now - v.last)) (challengeCycleSeconds v)) } := by
  simp [CalculateWatingToPrepare, rem64, hc]

/-- C10, amended: for every clock reading `now`, every anchor (`now` before
the anchor included) and every `prepareInterval >= 0` with `cycleLength > 0`
and `prepareInterval + cycleLength` (whole seconds) below `2^63` nanoseconds,
`CalculateWatingToPrepare` returns, `CalculateWatingToProve` called next on the
clock advanced by the first wait returns, and both waits are `>= 0`. -/
theorem c10_waits_nonnegative (v : GRIDValidator) (now : Int)
    (hp : 0 ≤ v.prepareInterval) (hc : 0 < challengeCycleSeconds v)
    (hb : (seconds v.prepareInterval + challengeCycleSeconds v) * 1000000000 <
      9223372036854775808) :
    ∃ r1 r2, CalculateWatingToPrepare v now = some r1 ∧
      CalculateWatingToProve r1.v (wrap64 (now + seconds r1.wait)) = some r2 ∧
      0 ≤ r1.wait ∧ 0 ≤ r2.wait := by
  have hP : 0 ≤ seconds v.prepareInterval := seconds_nonneg _ hp
  obtain ⟨r1, h1, hw1, hv1⟩ := CalculateWatingToPrepare_wait v now (ne_of_gt hc)
  have hC1 : challengeCycleSeconds r1.v = challengeCycleSeconds v := by rw [hv1]; rfl
  have hP1 : seconds r1.v.prepareInterval = seconds v.prepareInterval := by rw [hv1]
  have hl1 : r1.v.last = wrap64 (now -
      Int.tmod (wrap64 (now - v.last)) (challengeCycleSeconds v)) := by rw [hv1]
  obtain ⟨r2, h2, hw2⟩ := CalculateWatingToProve_wait r1.v (wrap64 (now + seconds r1.wait))
    (by rw [hC1]; exact ne_of_gt hc)
  rw [hC1, hP1, hl1] at hw2
  obtain ⟨hlo, hhi⟩ := tmod_bounds (wrap64 (now - v.last)) (challengeCycleSeconds v) hc
  generalize Int.tmod (wrap64 (now - v.last)) (challengeCycleSeconds v) = over at *
  generalize challengeCycleSeconds v = C at *
  generalize seconds v.prepareInterval = P at *
  generalize seconds (wrap64 (r1.v.prepareInterval + r1.v.proveInterval)) = Q at *
  refine ⟨r1, r2, h1, h2, ?_, ?_⟩
  · rw [hw1]
    split
    · rw [wrap64_of_isInt64 (C - over) (by unfold isInt64; omega)]
      rw [wrap64_of_isInt64 _ (by unfold isInt64; omega)]
      omega
    · decide
  · by_cases hge : over ≥ P
    · -- the prepare phase has passed: the first wait runs to the end of the cycle
      have e1 : r1.wait = (C - over) * 1000000000 := by
        rw [hw1, if_pos hge, wrap64_of_isInt64 (C - over) (by unfold isInt64; omega)]
        exact wrap64_of_isInt64 _ (by unfold isInt64; omega)
      have hd : wrap64 (wrap64 (now + (C - over)) - wrap64 (now - over)) = C := by
        unfold wrap64; omega
      rw [e1, seconds_mul (C - over) (by omega) (by omega), hd, Int.tmod_self] at hw2
      rw [hw2]
      by_cases h0 : (0 : Int) < P
      · rw [if_pos h0, sub_zero, wrap64_of_isInt64 P (by unfold isInt64; omega)]
        rw [wrap64_of_isInt64 _ (by unfold isInt64; omega)]
        omega
      · have hP0 : P = 0 := by omega
        subst hP0
        rw [if_neg h0, add_zero, sub_zero, wrap64_of_isInt64 _ (isInt64_wrap64 C),
          wrap64_of_isInt64 C (by unfold isInt64; omega)]
        split
        · rw [wrap64_of_isInt64 _ (by unfold isInt64; omega)]; omega
        · decide
    · -- inside the prepare phase, or before the anchor: no first wait
      have hlt : over < P := by omega
      have e1 : r1.wait = 0 := by
        rw [hw1, if_neg hge]; decide
      have hs0 : seconds 0 = 0 := by decide
      have hd : wrap64 (wrap64 (now + 0) - wrap64 (now - over)) = over := by
        unfold wrap64; omega
      rw [e1, hs0, hd, tmod_small over C hlo hhi, if_pos hlt] at hw2
      rw [hw2, wrap64_of_isInt64 (P - over) (by unfold isInt64; omega)]
      rw [wrap64_of_isInt64 _ (by unfold isInt64; omega)]
      omega

/-- Witness of C10: the intervals of `NewGRIDValidator` (10 s, 10 s, 100 s),
anchor 0, clock 1 700 000 000. -/
theorem c10_waits_nonnegative_witness :
    ∃ r1 r2, CalculateWatingToPrepare ⟨0, 10000000000, 10000000000, 100000000000⟩
        1700000000 = some r1 ∧
      CalculateWatingToProve r1.v (wrap64 (1700000000 + seconds r1.wait)) = some r2 ∧
      0 ≤ r1.wait ∧ 0 ≤ r2.wait :=
  c10_waits_nonnegative ⟨0, 10000000000, 10000000000, 100000000000⟩ 1700000000
    (by decide) (by decide) (by decide)

/-! ## Phase arithmetic -/

/-- The cycle length in seconds stays below `2^63 / 10^9`. -/
theorem challengeCycleSeconds_bound (v : GRIDValidator) :
    challengeCycleSeconds v < 9223372037 :=
  (seconds_bound _ (isInt64_wrap64 _)).2

/-- For a clock at or after the anchor the truncated remainder is the
mathematical one. -/
theorem tmod_eq_emod_of_le (a c : Int) (ha : 0 ≤ a) (hc : 0 < c) : Int.tmod a c = a % c :=
  Int.tmod_eq_emod ha (le_of_lt hc)

/-- The three boundaries are ordered when the intervals are non-negative and
their sum fits a `time.Duration`. -/
theorem boundaries_ordered (v : GRIDValidator)
    (hp : 0 ≤ v.prepareInterval) (hq : 0 ≤ v.proveInterval) (hw : 0 ≤ v.waitInterval)
    (hsum : v.prepareInterval + v.proveInterval + v.waitInterval < 9223372036854775808) :
    0 ≤ seconds v.prepareInterval ∧
      seconds v.prepareInterval ≤ seconds (wrap64 (v.prepareInterval + v.proveInterval)) ∧
      seconds (wrap64 (v.prepareInterval + v.proveInterval)) ≤ challengeCycleSeconds v := by
  have h1 : wrap64 (v.prepareInterval + v.proveInterval) = v.prepareInterval + v.proveInterval :=
    wrap64_of_isInt64 _ (by unfold isInt64; omega)
  have h2 : wrap64 (v.prepareInterval + v.proveInterval + v.waitInterval) =
      v.prepareInterval + v.proveInterval + v.waitInterval :=
    wrap64_of_isInt64 _ (by unfold isInt64; omega)
  unfold challengeCycleSeconds
  rw [h1, h2]
  exact ⟨seconds_nonneg _ hp, seconds_mono _ _ hp (by omega) (by omega),
    seconds_mono _ _ (by omega) (by omega) (by omega)⟩

/-- C11 as stated fails: with the anchor at 120, the clock at 100 and a cycle
of 120 s the offset the scheduler computes is `-20`, outside `[0, 120)` and in
none of the three phases. -/
theorem c11_counterexample_negative_offset :
    challengeCycleSeconds ⟨120, 10000000000, 10000000000, 100000000000⟩ = 120 ∧
      over ⟨120, 10000000000, 10000000000, 100000000000⟩ 100 = some (-20) := by
  decide

/-- C11, amended: for non-negative intervals whose sum fits a `time.Duration`,
`cycleLength > 0` and a difference `now - lastAnchor` that fits an `int64`,
the offset is computed and lies strictly between `-cycleLength` and
`cycleLength`; for `now >= lastAnchor` it is `(now - lastAnchor) mod
cycleLength`, lies in `[0, cycleLength)` and exactly one of the three phases
holds; for `now < lastAnchor` it is `<= 0`. -/
theorem c11_offset_phase (v : GRIDValidator) (now : Int)
    (hp : 0 ≤ v.prepareInterval) (hq : 0 ≤ v.proveInterval) (hw : 0 ≤ v.waitInterval)
    (hsum : v.prepareInterval + v.proveInterval + v.waitInterval < 9223372036854775808)
    (hc : 0 < challengeCycleSeconds v) (hd : isInt64 (now - v.last)) :
    ∃ o, over v now = some o ∧ -challengeCycleSeconds v < o ∧ o < challengeCycleSeconds v ∧
      (v.last ≤ now →
        o = (now - v.last) % challengeCycleSeconds v ∧ 0 ≤ o ∧
        (((0 ≤ o ∧ o < seconds v.prepareInterval) ∧
            ¬ (seconds v.prepareInterval ≤ o ∧
              o < seconds (wrap64 (v.prepareInterval + v.proveInterval))) ∧
            ¬ (seconds (wrap64 (v.prepareInterval + v.proveInterval)) ≤ o ∧
              o < challengeCycleSeconds v)) ∨
          (¬ (0 ≤ o ∧ o < seconds v.prepareInterval) ∧
            (seconds v.prepareInterval ≤ o ∧
              o < seconds (wrap64 (v.prepareInterval + v.proveInterval))) ∧
            ¬ (seconds (wrap64 (v.prepareInterval + v.proveInterval)) ≤ o ∧
              o < challengeCycleSeconds v)) ∨
          (¬ (0 ≤ o ∧ o < seconds v.prepareInterval) ∧
            ¬ (seconds v.prepareInterval ≤ o ∧
              o < seconds (wrap64 (v.prepareInterval + v.proveInterval))) ∧
            (seconds (wrap64 (v.prepareInterval + v.proveInterval)) ≤ o ∧
              o < challengeCycleSeconds v)))) ∧
      (now < v.last → o ≤ 0) := by
  obtain ⟨hP, hPQ, hQC⟩ := boundaries_ordered v hp hq hw hsum
  obtain ⟨hlo, hhi⟩ := tmod_bounds (now - v.last) (challengeCycleSeconds v) hc
  refine ⟨Int.tmod (now - v.last) (challengeCycleSeconds v), ?_, hlo, hhi, ?_, ?_⟩
  · simp [over, rem64, ne_of_gt hc, wrap64_of_isInt64 _ hd]
  · intro hnow
    have he := tmod_eq_emod_of_le (now - v.last) (challengeCycleSeconds v) (by omega) hc
    have h0 : 0 ≤ Int.tmod (now - v.last) (challengeCycleSeconds v) :=
      Int.tmod_nonneg _ (by omega)
    refine ⟨he, h0, ?_⟩
    generalize Int.tmod (now - v.last) (challengeCycleSeconds v) = o at *
    generalize challengeCycleSeconds v = C at *
    generalize seconds v.prepareInterval = P at *
    generalize seconds (wrap64 (v.prepareInterval + v.proveInterval)) = Q at *
    omega
  · intro hnow
    have h1 : Int.tmod (now - v.last) (challengeCycleSeconds v) =
        -Int.tmod (-(now - v.last)) (challengeCycleSeconds v) := by
      rw [Int.tmod_def, Int.tmod_def, Int.neg_tdiv]
      ring
    have h2 := Int.tmod_nonneg (challengeCycleSeconds v) (show 0 ≤ -(now - v.last) by omega)
    omega

/-- Witness of C11: the intervals of `NewGRIDValidator`, anchor 0, clock
1 700 000 000. -/
theorem c11_offset_phase_witness :
    ∃ o, over ⟨0, 10000000000, 10000000000, 100000000000⟩ 1700000000 = some o ∧
      -challengeCycleSeconds ⟨0, 10000000000, 10000000000, 100000000000⟩ < o ∧
      o < challengeCycleSeconds ⟨0, 10000000000, 10000000000, 100000000000⟩ ∧
      ((0 : Int) ≤ 1700000000 →
        o = (1700000000 - 0) %
            challengeCycleSeconds ⟨0, 10000000000, 10000000000, 100000000000⟩ ∧ 0 ≤ o ∧
        (((0 ≤ o ∧ o < seconds 10000000000) ∧
            ¬ (seconds 10000000000 ≤ o ∧
              o < seconds (wrap64 (10000000000 + 10000000000))) ∧
            ¬ (seconds (wrap64 (10000000000 + 10000000000)) ≤ o ∧
              o < challengeCycleSeconds ⟨0, 10000000000, 10000000000, 100000000000⟩)) ∨
          (¬ (0 ≤ o ∧ o < seconds 10000000000) ∧
            (seconds 10000000000 ≤ o ∧
              o < seconds (wrap64 (10000000000 + 10000000000))) ∧
            ¬ (seconds (wrap64 (10000000000 + 10000000000)) ≤ o ∧
              o < challengeCycleSeconds ⟨0, 10000000000, 10000000000, 100000000000⟩)) ∨
          (¬ (0 ≤ o ∧ o < seconds 10000000000) ∧
            ¬ (seconds 10000000000 ≤ o ∧
              o < seconds (wrap64 (10000000000 + 10000000000))) ∧
            (seconds (wrap64 (10000000000 + 10000000000)) ≤ o ∧
              o < challengeCycleSeconds ⟨0, 10000000000, 10000000000, 100000000000⟩)))) ∧
      ((1700000000 : Int) < 0 → o ≤ 0) :=
  c11_offset_phase ⟨0, 10000000000, 10000000000, 100000000000⟩ 1700000000
    (by decide) (by decide) (by decide) (by decide) (by decide) (by decide)

/-- C12 as stated fails: with the intervals 10 s, 10 s, 100 s, anchor 0 and
clock 20 the offset is 20 = `prepareInterval + proveInterval`, the first second
of the wait phase, and `IsProveTime` returns true. -/
theorem c12_counterexample_upper_bound_included :
    IsProveTime ⟨0, 10000000000, 10000000000, 100000000000⟩ 20 = some true ∧
      ((20 : Int) - 0) % challengeCycleSeconds ⟨0, 10000000000, 10000000000, 100000000000⟩ =
        20 ∧
      seconds (wrap64 (10000000000 + 10000000000)) = 20 := by
  decide

/-- C12, amended: for `now >= lastAnchor` with a difference that fits an
`int64` and `cycleLength > 0`, `IsProveTime` returns, and returns true exactly
when `offset = (now - lastAnchor) mod cycleLength` lies in the closed interval
`[prepareInterval, prepareInterval + proveInterval]` (whole seconds), upper
bound included. -/
theorem c12_prove_time_closed_interval (v : GRIDValidator) (now : Int)
    (hc : 0 < challengeCycleSeconds v) (hnow : v.last ≤ now)
    (hd : now - v.last < 9223372036854775808) :
    IsProveTime v now =
      some (decide (seconds v.prepareInterval ≤ (now - v.last) % challengeCycleSeconds v ∧
        (now - v.last) % challengeCycleSeconds v ≤
          seconds (wrap64 (v.prepareInterval + v.proveInterval)))) := by
  have hw : wrap64 (now - v.last) = now - v.last :=
    wrap64_of_isInt64 _ (by unfold isInt64; omega)
  have he := tmod_eq_emod_of_le (now - v.last) (challengeCycleSeconds v) (by omega) hc
  simp [IsProveTime, rem64, ne_of_gt hc, hw, he]

/-- Witness of C12: the intervals of `NewGRIDValidator`, anchor 0, clock 15. -/
theorem c12_prove_time_closed_interval_witness :
    IsProveTime ⟨0, 10000000000, 10000000000, 100000000000⟩ 15 =
      some (decide (seconds 10000000000 ≤
          (15 - 0) % challengeCycleSeconds ⟨0, 10000000000, 10000000000, 100000000000⟩ ∧
        (15 - 0) % challengeCycleSeconds ⟨0, 10000000000, 10000000000, 100000000000⟩ ≤
          seconds (wrap64 (10000000000 + 10000000000)))) :=
  c12_prove_time_closed_interval ⟨0, 10000000000, 10000000000, 100000000000⟩ 15
    (by decide) (by decide) (by decide)

/-- C16 as stated fails.  First, with anchor 120 and clock 100 (cycle 120 s,
`prepareInterval` 10 s) `(now - lastAnchor) mod cycleLength` is 100, which is
`>= prepareInterval`, yet the wait returned is 0 and the anchor stays 120
instead of `now - 100 = 0`: the code's `%` gives `-20`.  Second, with the
clock at `2^63 - 1` and anchor `-1` the difference wraps, the offset is `-8`,
and the anchor is set to `-2^63 + 7`, not to `now - offset`. -/
theorem c16_counterexample_offset_sign_and_wrap :
    CalculateWatingToPrepare ⟨120, 10000000000, 10000000000, 100000000000⟩ 100 =
        some ⟨⟨120, 10000000000, 10000000000, 100000000000⟩, 0, 240⟩ ∧
      ((100 : Int) - 120) % 120 = 100 ∧ seconds 10000000000 ≤ 100 ∧
      CalculateWatingToPrepare ⟨-1, 10000000000, 10000000000, 100000000000⟩
          9223372036854775807 =
        some ⟨⟨-9223372036854775801, 10000000000, 10000000000, 100000000000⟩, 0,
          -9223372036854775681⟩ ∧
      over ⟨-1, 10000000000, 10000000000, 100000000000⟩ 9223372036854775807 = some (-8) := by
  decide

/-- C16, amended: for `prepareInterval >= 0`, `cycleLength > 0` and `offset`
the remainder Go's `%` leaves for `now - lastAnchor` (the sign of the
difference; `(now - lastAnchor) mod cycleLength` when `now >= lastAnchor`),
provided `now - lastAnchor`, `now - offset` and `now - offset + cycleLength`
fit an `int64`, `CalculateWatingToPrepare` returns wait
`cycleLength - offset` seconds when `offset >= prepareInterval` and 0
otherwise, sets the anchor to `now - offset` in both cases (the intervals
untouched) and returns `next = now - offset + cycleLength`. -/
theorem c16_wait_to_prepare (v : GRIDValidator) (now : Int)
    (hp : 0 ≤ v.prepareInterval) (hc : 0 < challengeCycleSeconds v)
    (hd : isInt64 (now - v.last))
    (hl : isInt64 (now - Int.tmod (now - v.last) (challengeCycleSeconds v)))
    (hn : isInt64 (now - Int.tmod (now - v.last) (challengeCycleSeconds v) +
      challengeCycleSeconds v)) :
    ∃ r, CalculateWatingToPrepare v now = some r ∧
      over v now = some (Int.tmod (now - v.last) (challengeCycleSeconds v)) ∧
      (v.last ≤ now → Int.tmod (now - v.last) (challengeCycleSeconds v) =
        (now - v.last) % challengeCycleSeconds v) ∧
      r.wait = (if Int.tmod (now - v.last) (challengeCycleSeconds v) ≥
            seconds v.prepareInterval then
          challengeCycleSeconds v - Int.tmod (now - v.last) (challengeCycleSeconds v)
        else 0) * 1000000000 ∧
      r.v = { v with last := now - Int.tmod (now - v.last) (challengeCycleSeconds v) } ∧
      r.next = now - Int.tmod (now - v.last) (challengeCycleSeconds v) +
        challengeCycleSeconds v := by
  have hP : 0 ≤ seconds v.prepareInterval := seconds_nonneg _ hp
  have hC := challengeCycleSeconds_bound v
  have hw : wrap64 (now - v.last) = now - v.last := wrap64_of_isInt64 _ hd
  obtain ⟨r, h1, hw1, hv1⟩ := CalculateWatingToPrepare_wait v now (ne_of_gt hc)
  have hnext : r.next = wrap64 (r.v.last + challengeCycleSeconds v) := by
    have : CalculateWatingToPrepare v now = some r := h1
    simp only [CalculateWatingToPrepare, rem64, if_neg (ne_of_gt hc), Option.map_some',
      Option.some.injEq] at this
    rw [← this]
  rw [hw] at hw1 hv1
  obtain ⟨hlo, hhi⟩ := tmod_bounds (now - v.last) (challengeCycleSeconds v) hc
  refine ⟨r, h1, ?_, ?_, ?_, ?_, ?_⟩
  · simp [over, rem64, ne_of_gt hc, hw]
  · intro hnow
    exact tmod_eq_emod_of_le _ _ (by omega) hc
  · rw [hw1]
    split
    · rw [wrap64_of_isInt64 (challengeCycleSeconds v - _) (by unfold isInt64; omega)]
      exact wrap64_of_isInt64 _ (by unfold isInt64; omega)
    · decide
  · rw [hv1, wrap64_of_isInt64 _ hl]
  · rw [hnext, hv1]
    simp only
    rw [wrap64_of_isInt64 _ hl, wrap64_of_isInt64 _ hn]

/-- Witness of C16: the intervals of `NewGRIDValidator`, anchor 0, clock
1 700 000 000. -/
theorem c16_wait_to_prepare_witness :
    ∃ r, CalculateWatingToPrepare ⟨0, 10000000000, 10000000000, 100000000000⟩ 1700000000 =
        some r ∧
      over ⟨0, 10000000000, 10000000000, 100000000000⟩ 1700000000 =
        some (Int.tmod (1700000000 - 0)
          (challengeCycleSeconds ⟨0, 10000000000, 10000000000, 100000000000⟩)) ∧
      ((0 : Int) ≤ 1700000000 → Int.tmod (1700000000 - 0)
          (challengeCycleSeconds ⟨0, 10000000000, 10000000000, 100000000000⟩) =
        (1700000000 - 0) %
          challengeCycleSeconds ⟨0, 10000000000, 10000000000, 100000000000⟩) ∧
      r.wait = (if Int.tmod (1700000000 - 0)
            (challengeCycleSeconds ⟨0, 10000000000, 10000000000, 100000000000⟩) ≥
            seconds 10000000000 then
          challengeCycleSeconds ⟨0, 10000000000, 10000000000, 100000000000⟩ -
            Int.tmod (1700000000 - 0)
              (challengeCycleSeconds ⟨0, 10000000000, 10000000000, 100000000000⟩)
        else 0) * 1000000000 ∧
      r.v = { (⟨0, 10000000000, 10000000000, 100000000000⟩ : GRIDValidator) with
        last := 1700000000 - Int.tmod (1700000000 - 0)
          (challengeCycleSeconds ⟨0, 10000000000, 10000000000, 100000000000⟩) } ∧
      r.next = 1700000000 - Int.tmod (1700000000 - 0)
          (challengeCycleSeconds ⟨0, 10000000000, 10000000000, 100000000000⟩) +
        challengeCycleSeconds ⟨0, 10000000000, 10000000000, 100000000000⟩ :=
  c16_wait_to_prepare ⟨0, 10000000000, 10000000000, 100000000000⟩ 1700000000
    (by decide) (by decide) (by decide) (by decide) (by decide)

/-- With a non-zero cycle `CalculateWatingToProve` returns; its wait and its
anchor are the ones of the three-way branch on the offset. -/
theorem CalculateWatingToProve_result (v : GRIDValidator) (now : Int)
    (hc : challengeCycleSeconds v ≠ 0) :
    ∃ r, CalculateWatingToProve v now = some r ∧
      r.wait = wrap64 ((if Int.tmod (wrap64 (now - v.last)) (challengeCycleSeconds v) <
            seconds v.prepareInterval then
          wrap64 (seconds v.prepareInterval -
            Int.tmod (wrap64 (now - v.last)) (challengeCycleSeconds v))
        else if Int.tmod (wrap64 (now - v.last)) (challengeCycleSeconds v) >
            seconds (wrap64 (v.prepareInterval + v.proveInterval)) then
          wrap64 (wrap64 (challengeCycleSeconds v + seconds v.prepareInterval) -
            Int.tmod (wrap64 (now - v.last)) (challengeCycleSeconds v))
        else 0) * 1000000000) ∧
      r.v = { v with last :=
        (if Int.tmod (wrap64 (now - v.last)) (challengeCycleSeconds v) <
            seconds v.prepareInterval then
          wrap64 (now - Int.tmod (wrap64 (now - v.last)) (challengeCycleSeconds v))
        else if Int.tmod (wrap64 (now - v.last)) (challengeCycleSeconds v) >
            seconds (wrap64 (v.prepareInterval + v.proveInterval)) then
          wrap64 (wrap64 (now - Int.tmod (wrap64 (now - v.last)) (challengeCycleSeconds v)) +
            challengeCycleSeconds v)
        else v.last) } := by
  simp [CalculateWatingToProve, rem64, hc]

/-- C17 as stated fails.  First, with the intervals 10 s, 10 s, 100 s, anchor
0 and clock 20 the offset is 20 = `prepareInterval + proveInterval`, outside
the half-open prove phase `[10, 20)`, yet the wait is 0 and the anchor is
unchanged.  Second, with `prepareInterval` = 9 000 000 000 s, anchor
9 700 000 000 and clock 1 700 000 000 the offset is below `prepareInterval`
and the wait returned is negative, not positive. -/
theorem c17_counterexample_boundary_and_overflow :
    CalculateWatingToProve ⟨0, 10000000000, 10000000000, 100000000000⟩ 20 =
        some ⟨⟨0, 10000000000, 10000000000, 100000000000⟩, 0, 120⟩ ∧
      over ⟨0, 10000000000, 10000000000, 100000000000⟩ 20 = some 20 ∧
      seconds (wrap64 (10000000000 + 10000000000)) = 20 ∧
      over ⟨9700000000, 9000000000000000000, 0, 0⟩ 1700000000 = some (-8000000000) ∧
      (CalculateWatingToProve ⟨9700000000, 9000000000000000000, 0, 0⟩ 1700000000).map
        (fun r => r.wait) = some (-1446744073709551616) := by
  decide

/-- C17, amended: for `prepareInterval >= 0`, `cycleLength > 0`, `offset` the
remainder Go's `%` leaves for `now - lastAnchor`, and provided
`now - lastAnchor`, `now - offset`, `now - offset + cycleLength` fit an `int64`
and `prepareInterval + cycleLength` (whole seconds) is below `2^63`
nanoseconds, `CalculateWatingToProve` returns and either (a) the offset lies
in the closed interval `[prepareInterval, prepareInterval + proveInterval]`,
the wait is 0 and the validator is unchanged, or (b) the offset is below
`prepareInterval`, the wait is positive and the anchor is `now - offset`, or
the offset is above `prepareInterval + proveInterval`, the wait is positive
and the anchor is `now - offset + cycleLength`; in (b) the clock at the end of
the wait minus the new anchor is `prepareInterval`. -/
theorem c17_wait_to_prove (v : GRIDValidator) (now : Int)
    (hp : 0 ≤ v.prepareInterval) (hc : 0 < challengeCycleSeconds v)
    (hd : isInt64 (now - v.last))
    (hb : (seconds v.prepareInterval + challengeCycleSeconds v) * 1000000000 <
      9223372036854775808)
    (hl : isInt64 (now - Int.tmod (now - v.last) (challengeCycleSeconds v)))
    (hn : isInt64 (now - Int.tmod (now - v.last) (challengeCycleSeconds v) +
      challengeCycleSeconds v)) :
    ∃ r, CalculateWatingToProve v now = some r ∧
      over v now = some (Int.tmod (now - v.last) (challengeCycleSeconds v)) ∧
      ((seconds v.prepareInterval ≤ Int.tmod (now - v.last) (challengeCycleSeconds v) ∧
          Int.tmod (now - v.last) (challengeCycleSeconds v) ≤
            seconds (wrap64 (v.prepareInterval + v.proveInterval)) ∧
          r.wait = 0 ∧ r.v = v) ∨
        (Int.tmod (now - v.last) (challengeCycleSeconds v) < seconds v.prepareInterval ∧
          0 < r.wait ∧
          r.v = { v with last := now - Int.tmod (now - v.last) (challengeCycleSeconds v) } ∧
          now + seconds r.wait - r.v.last = seconds v.prepareInterval) ∨
        (seconds v.prepareInterval ≤ Int.tmod (now - v.last) (challengeCycleSeconds v) ∧
          seconds (wrap64 (v.prepareInterval + v.proveInterval)) <
            Int.tmod (now - v.last) (challengeCycleSeconds v) ∧
          0 < r.wait ∧
          r.v = { v with last := now - Int.tmod (now - v.last) (challengeCycleSeconds v) +
            challengeCycleSeconds v } ∧
          now + seconds r.wait - r.v.last = seconds v.prepareInterval)) := by
  have hP : 0 ≤ seconds v.prepareInterval := seconds_nonneg _ hp
  have hw : wrap64 (now - v.last) = now - v.last := wrap64_of_isInt64 _ hd
  obtain ⟨r, h1, hw1, hv1⟩ := CalculateWatingToProve_result v now (ne_of_gt hc)
  rw [hw] at hw1 hv1
  obtain ⟨hlo, hhi⟩ := tmod_bounds (now - v.last) (challengeCycleSeconds v) hc
  have hov : over v now = some (Int.tmod (now - v.last) (challengeCycleSeconds v)) := by
    simp [over, rem64, ne_of_gt hc, hw]
  refine ⟨r, h1, hov, ?_⟩
  generalize Int.tmod (now - v.last) (challengeCycleSeconds v) = o at *
  generalize challengeCycleSeconds v = C at *
  generalize seconds v.prepareInterval = P at *
  generalize seconds (wrap64 (v.prepareInterval + v.proveInterval)) = Q at *
  by_cases h1 : o < P
  · right; left
    rw [if_pos h1, wrap64_of_isInt64 (P - o) (by unfold isInt64; omega),
      wrap64_of_isInt64 _ (by unfold isInt64; omega)] at hw1
    rw [if_pos h1, wrap64_of_isInt64 _ hl] at hv1
    refine ⟨h1, by rw [hw1]; omega, hv1, ?_⟩
    rw [hw1, seconds_mul _ (by omega) (by omega), hv1]
    simp only
    omega
  · by_cases h2 : o > Q
    · right; right
      have e1 : wrap64 (wrap64 (C + P) - o) = C + P - o := by
        rw [wrap64_of_isInt64 (C + P) (by unfold isInt64; omega)]
        exact wrap64_of_isInt64 _ (by unfold isInt64; omega)
      rw [if_neg h1, if_pos h2, e1, wrap64_of_isInt64 _ (by unfold isInt64; omega)] at hw1
      rw [if_neg h1, if_pos h2, wrap64_of_isInt64 _ hl, wrap64_of_isInt64 _ hn] at hv1
      refine ⟨by omega, h2, by rw [hw1]; omega, hv1, ?_⟩
      rw [hw1, seconds_mul _ (by omega) (by omega), hv1]
      simp only
      omega
    · left
      rw [if_neg h1, if_neg h2] at hw1 hv1
      refine ⟨by omega, by omega, by rw [hw1]; decide, hv1⟩

/-- Witness of C17: the intervals of `NewGRIDValidator`, anchor 0, clock
1 700 000 000. -/
theorem c17_wait_to_prove_witness :
    ∃ r, CalculateWatingToProve ⟨0, 10000000000, 10000000000, 100000000000⟩ 1700000000 =
        some r ∧
      over ⟨0, 10000000000, 10000000000, 100000000000⟩ 1700000000 =
        some (Int.tmod (1700000000 - 0)
          (challengeCycleSeconds ⟨0, 10000000000, 10000000000, 100000000000⟩)) ∧
      ((seconds 10000000000 ≤ Int.tmod (1700000000 - 0)
            (challengeCycleSeconds ⟨0, 10000000000, 10000000000, 100000000000⟩) ∧
          Int.tmod (1700000000 - 0)
              (challengeCycleSeconds ⟨0, 10000000000, 10000000000, 100000000000⟩) ≤
            seconds (wrap64 (10000000000 + 10000000000)) ∧
          r.wait = 0 ∧ r.v = ⟨0, 10000000000, 10000000000, 100000000000⟩) ∨
        (Int.tmod (1700000000 - 0)
              (challengeCycleSeconds ⟨0, 10000000000, 10000000000, 100000000000⟩) <
            seconds 10000000000 ∧
          0 < r.wait ∧
          r.v = { (⟨0, 10000000000, 10000000000, 100000000000⟩ : GRIDValidator) with
            last := 1700000000 - Int.tmod (1700000000 - 0)
              (challengeCycleSeconds ⟨0, 10000000000, 10000000000, 100000000000⟩) } ∧
          1700000000 + seconds r.wait - r.v.last = seconds 10000000000) ∨
        (seconds 10000000000 ≤ Int.tmod (1700000000 - 0)
            (challengeCycleSeconds ⟨0, 10000000000, 10000000000, 100000000000⟩) ∧
          seconds (wrap64 (10000000000 + 10000000000)) <
            Int.tmod (1700000000 - 0)
              (challengeCycleSeconds ⟨0, 10000000000, 10000000000, 100000000000⟩) ∧
          0 < r.wait ∧
          r.v = { (⟨0, 10000000000, 10000000000, 100000000000⟩ : GRIDValidator) with
            last := 1700000000 - Int.tmod (1700000000 - 0)
                (challengeCycleSeconds ⟨0, 10000000000, 10000000000, 100000000000⟩) +
              challengeCycleSeconds ⟨0, 10000000000, 10000000000, 100000000000⟩ } ∧
          1700000000 + seconds r.wait - r.v.last = seconds 10000000000)) :=
  c17_wait_to_prove ⟨0, 10000000000, 10000000000, 100000000000⟩ 1700000000
    (by decide) (by decide) (by decide) (by decide) (by decide) (by decide)

/-! ## Byte encoding -/

/-- The little-endian encoding is injective on `uint64`. -/
theorem putUint64LE_inj (x y : Nat) (hx : x < 18446744073709551616)
    (hy : y < 18446744073709551616) (h : putUint64LE x = putUint64LE y) : x = y := by
  simp only [putUint64LE, List.cons.injEq, and_true] at h
  omega

/-- C13, the code at the failing input: the providers the program stores are
written by `Address.Hex`, with a `0x` prefix.  `Hex2Bytes` stops at the `x` and
yields no byte, so the encoding of a NodeID is its index alone, and the NodeIDs
of two different providers with one index (here two checksummed addresses,
index 7) have one encoding. -/
theorem c13_prefixed_providers_share_encoding :
    Hex2Bytes "0x5B38Da6a701c568545dCfcB03FcB875f56beddC4" = [] ∧
      NodeID.ToBytes ⟨"0x5B38Da6a701c568545dCfcB03FcB875f56beddC4", 7⟩ =
        [7, 0, 0, 0, 0, 0, 0, 0] ∧
      NodeID.ToBytes ⟨"0xAb8483F64d9C6d1EcF9b849Ae677dD3315835cb2", 7⟩ =
        [7, 0, 0, 0, 0, 0, 0, 0] ∧
      (⟨"0x5B38Da6a701c568545dCfcB03FcB875f56beddC4", 7⟩ : NodeID) ≠
        ⟨"0xAb8483F64d9C6d1EcF9b849Ae677dD3315835cb2", 7⟩ := by
  decide

/-! ## Result map -/

/-- The effect of one received result on one key. -/
theorem receiveResult_apply (m : ResultMap) (r : Result) (k : NodeID) :
    receiveResult m r k =
      if (m r.NodeID).isSome = true ∧ k = r.NodeID then some true else m k := by
  unfold receiveResult
  cases h : m r.NodeID <;> simp

/-- A key set to `true` stays `true`. -/
theorem HandleResult_true (rs : List Result) :
    ∀ (m : ResultMap) (k : NodeID), m k = some true → HandleResult m rs k = some true := by
  induction rs with
  | nil => intro m k h; exact h
  | cons r rest ih =>
    intro m k h
    have : receiveResult m r k = some true := by
      rw [receiveResult_apply]
      split
      · rfl
      · exact h
    exact ih (receiveResult m r) k this

/-- A key no received result names keeps its value. -/
theorem HandleResult_untouched (rs : List Result) :
    ∀ (m : ResultMap) (k : NodeID), (∀ r ∈ rs, r.NodeID ≠ k) →
      HandleResult m rs k = m k := by
  induction rs with
  | nil => intro m k _; rfl
  | cons r rest ih =>
    intro m k h
    have hne : k ≠ r.NodeID := fun e => h r (List.mem_cons_self r rest) e.symm
    have h1 : receiveResult m r k = m k := by
      rw [receiveResult_apply]
      simp [hne]
    have := ih (receiveResult m r) k (fun x hx => h x (List.mem_cons_of_mem r hx))
    simpa [HandleResult, h1] using this

/-- The key set never changes. -/
theorem HandleResult_keys (rs : List Result) :
    ∀ (m : ResultMap) (k : NodeID), (HandleResult m rs k).isSome = (m k).isSome := by
  induction rs with
  | nil => intro m k; rfl
  | cons r rest ih =>
    intro m k
    have h1 : (receiveResult m r k).isSome = (m k).isSome := by
      rw [receiveResult_apply]
      split
      · rename_i hc
        rw [hc.2, hc.1]
        rfl
      · rfl
    have := ih (receiveResult m r) k
    simpa [HandleResult, h1] using this

/-- A member key that a received result names ends `true`. -/
theorem HandleResult_named (rs : List Result) :
    ∀ (m : ResultMap) (k : NodeID), (m k).isSome = true → (∃ r ∈ rs, r.NodeID = k) →
      HandleResult m rs k = some true := by
  induction rs with
  | nil => intro m k _ h; obtain ⟨r, hr, _⟩ := h; cases hr
  | cons r rest ih =>
    intro m k hk h
    by_cases e : r.NodeID = k
    · have h1 : receiveResult m r k = some true := by
        rw [receiveResult_apply, e]
        simp [hk]
      exact HandleResult_true rest (receiveResult m r) k h1
    · obtain ⟨x, hx, hxk⟩ := h
      have hx2 : x ∈ rest := by
        rcases List.mem_cons.mp hx with h0 | h0
        · exact absurd (h0 ▸ hxk) e
        · exact h0
      have h1 : (receiveResult m r k).isSome = true := by
        rw [receiveResult_apply]
        have : ¬ k = r.NodeID := fun c => e c.symm
        simp [this, hk]
      exact ih (receiveResult m r) k h1 ⟨x, hx2, hxk⟩

/-- The map `GetChallengeNode` builds holds `false` at every key. -/
theorem GetChallengeNode_all_false (orders : List Order) :
    ∀ k b, GetChallengeNode orders k = some b → b = false := by
  unfold GetChallengeNode
  have key : ∀ (os : List Order) (m : ResultMap), (∀ k b, m k = some b → b = false) →
      ∀ k b, os.foldl (fun resultMap order k =>
        if k = { Provider := order.Provider, ID := order.Id } then some false
        else resultMap k) m k = some b → b = false := by
    intro os
    induction os with
    | nil => intro m hm; exact hm
    | cons o rest ih =>
      intro m hm
      apply ih
      intro k b hb
      by_cases hk : k = { Provider := o.Provider, ID := o.Id }
      · simp [hk] at hb
        exact hb
      · simp [hk] at hb
        exact hm k b hb
  exact key orders (fun _ => none) (by intro k b h; cases h)

/-- C14: for every initial result map whose values are all `false` and every
finite sequence of received results, the map `HandleResult` returns has the
same key set as the initial map, every key for which no result was received
is still `false`, and every key for which results were received, all with
`Success = true`, is `true`. -/
theorem c14_result_map_complete (m : ResultMap) (rs : List Result)
    (hf : ∀ k b, m k = some b → b = false) :
    (∀ k, (HandleResult m rs k).isSome = (m k).isSome) ∧
      (∀ k, (m k).isSome = true → (∀ r ∈ rs, r.NodeID ≠ k) →
        HandleResult m rs k = some false) ∧
      (∀ k, (m k).isSome = true → (∃ r ∈ rs, r.NodeID = k) →
        (∀ r ∈ rs, r.NodeID = k → r.Success = true) → HandleResult m rs k = some true) := by
  refine ⟨HandleResult_keys rs m, ?_, ?_⟩
  · intro k hk hno
    rw [HandleResult_untouched rs m k hno]
    obtain ⟨b, hb⟩ := Option.isSome_iff_exists.mp hk
    rw [hb, hf k b hb]
  · intro k hk hex _
    exact HandleResult_named rs m k hk hex

/-- Witness of C14: three active orders for distinct nodes and two successful
results. -/
theorem c14_result_map_complete_witness :
    (∀ k, (HandleResult
        (GetChallengeNode
          [⟨"u", "cp1", 1, 0, 0, 0, 0, 0, 0⟩, ⟨"u", "cp1", 2, 0, 0, 0, 0, 0, 0⟩,
           ⟨"u", "cp2", 1, 0, 0, 0, 0, 0, 0⟩])
        [⟨⟨"cp1", 1⟩, true⟩, ⟨⟨"cp2", 1⟩, true⟩] k).isSome =
      (GetChallengeNode
          [⟨"u", "cp1", 1, 0, 0, 0, 0, 0, 0⟩, ⟨"u", "cp1", 2, 0, 0, 0, 0, 0, 0⟩,
           ⟨"u", "cp2", 1, 0, 0, 0, 0, 0, 0⟩] k).isSome) ∧
      (∀ k, (GetChallengeNode
          [⟨"u", "cp1", 1, 0, 0, 0, 0, 0, 0⟩, ⟨"u", "cp1", 2, 0, 0, 0, 0, 0, 0⟩,
           ⟨"u", "cp2", 1, 0, 0, 0, 0, 0, 0⟩] k).isSome = true →
        (∀ r ∈ [(⟨⟨"cp1", 1⟩, true⟩ : Result), ⟨⟨"cp2", 1⟩, true⟩], r.NodeID ≠ k) →
        HandleResult
          (GetChallengeNode
            [⟨"u", "cp1", 1, 0, 0, 0, 0, 0, 0⟩, ⟨"u", "cp1", 2, 0, 0, 0, 0, 0, 0⟩,
             ⟨"u", "cp2", 1, 0, 0, 0, 0, 0, 0⟩])
          [⟨⟨"cp1", 1⟩, true⟩, ⟨⟨"cp2", 1⟩, true⟩] k = some false) ∧
      (∀ k, (GetChallengeNode
          [⟨"u", "cp1", 1, 0, 0, 0, 0, 0, 0⟩, ⟨"u", "cp1", 2, 0, 0, 0, 0, 0, 0⟩,
           ⟨"u", "cp2", 1, 0, 0, 0, 0, 0, 0⟩] k).isSome = true →
        (∃ r ∈ [(⟨⟨"cp1", 1⟩, true⟩ : Result), ⟨⟨"cp2", 1⟩, true⟩], r.NodeID = k) →
        (∀ r ∈ [(⟨⟨"cp1", 1⟩, true⟩ : Result), ⟨⟨"cp2", 1⟩, true⟩],
          r.NodeID = k → r.Success = true) →
        HandleResult
          (GetChallengeNode
            [⟨"u", "cp1", 1, 0, 0, 0, 0, 0, 0⟩, ⟨"u", "cp1", 2, 0, 0, 0, 0, 0, 0⟩,
             ⟨"u", "cp2", 1, 0, 0, 0, 0, 0, 0⟩])
          [⟨⟨"cp1", 1⟩, true⟩, ⟨⟨"cp2", 1⟩, true⟩] k = some true) :=
  c14_result_map_complete
    (GetChallengeNode
      [⟨"u", "cp1", 1, 0, 0, 0, 0, 0, 0⟩, ⟨"u", "cp1", 2, 0, 0, 0, 0, 0, 0⟩,
       ⟨"u", "cp2", 1, 0, 0, 0, 0, 0, 0⟩])
    [⟨⟨"cp1", 1⟩, true⟩, ⟨⟨"cp2", 1⟩, true⟩]
    (GetChallengeNode_all_false _)

/-! ## Persisting partial progress -/

/-- C15, the code at the failing input: a `Register` log in block 5 is
applied, then the sender of a `CreateOrder` log in block 6 cannot be
recovered; `DumpGRID` returns from inside the loop with the in-memory cursor at
6, above its value 0 at the start, and nothing is written to the store. -/
theorem c15_sender_failure_skips_persisting :
    DumpGRID (NewGRIDDumper none false)
        ⟨some [⟨some .Register, 5, false, false, false⟩,
               ⟨some .CreateOrder, 6, false, false, true⟩], false⟩ =
      ⟨⟨6, none⟩, [⟨some .Register, 5, false, false, false⟩], .returned⟩ ∧
    persistedCursor ⟨6, none⟩ = 0 := by
  decide

/-! ## Settlement before the schedule -/

/-- C18: for every row and every `v.last <= lastTime` (whatever `endTime`
is), the step returns a row, the reward is 0, the balance is unchanged and the
profit decreases by exactly the amount added to the penalty field. -/
theorem c18_no_reward_before_last_time (last : Int) (result : Bool) (p : Profit)
    (h : last ≤ p.LastTime) :
    calcReward last p = some 0 ∧
      ∃ q, AddPenaltyStep last result p = some q ∧ q.Balance = p.Balance ∧
        q.Profit = p.Profit - (q.Penalty - p.Penalty) ∧
        q.Penalty - p.Penalty = calcPenalty result p.Profit := by
  have h0 : calcReward last p = some 0 := by simp [calcReward, h]
  refine ⟨h0, applySettlement last result p 0, by simp [AddPenaltyStep, h0], ?_, ?_, ?_⟩
  · simp [applySettlement]
  · simp [applySettlement]
  · simp [applySettlement]

/-- Witness of C18: a row whose schedule already ended (`endTime = 50`)
settled at `v.last = 100 = lastTime` after a failed proof. -/
theorem c18_no_reward_before_last_time_witness :
    calcReward 100
        { Address := "cp", Balance := 7, Profit := 5000, Penalty := 3,
          LastTime := 100, EndTime := 50, Nonce := 0 } = some 0 ∧
      ∃ q, AddPenaltyStep 100 false
          { Address := "cp", Balance := 7, Profit := 5000, Penalty := 3,
            LastTime := 100, EndTime := 50, Nonce := 0 } = some q ∧ q.Balance = 7 ∧
        q.Profit = 5000 - (q.Penalty - 3) ∧
        q.Penalty - 3 = calcPenalty false 5000 :=
  c18_no_reward_before_last_time 100 false
    { Address := "cp", Balance := 7, Profit := 5000, Penalty := 3,
      LastTime := 100, EndTime := 50, Nonce := 0 } (by decide)

/-! ## Withdrawal -/

/-- C19 as stated fails at the last nonce: `Nonce` is a `uint64`, so for a row
with nonce `2^64 - 1` the increment wraps and the row is persisted with nonce
0. -/
theorem c19_counterexample_nonce_wraps :
    ((HandleWithdraw
        (fun a => if a = "cp" then
          some { Address := "cp", Balance := 100, Profit := 5, Penalty := 0,
                 LastTime := 10, EndTime := 20, Nonce := 18446744073709551615 }
          else none)
        (some ⟨"cp", 30⟩) false).2 "cp").map (fun q => (q.Balance, q.Nonce)) =
      some (70, 0) := by
  decide

/-- C19, amended: for every Profit row stored under its address with a nonce
below `2^64 - 1` and every decoded Withdraw event with amount `a` for that
address, when the write succeeds `HandleWithdraw` returns no error and the
store then holds under that address the row with the balance decreased by
exactly `a`, the nonce increased by exactly 1 and every other field unchanged,
all other rows untouched; when the write fails, or when no row exists for the
address of an event, it returns an error and the store is unchanged. -/
theorem c19_withdraw_updates_balance_and_nonce (db : ProfitStore) (out : WithdrawEvent)
    (p : Profit) (hrow : db out.Cp = some p) (haddr : p.Address = out.Cp)
    (hn : p.Nonce < 18446744073709551615) :
    (HandleWithdraw db (some out) false).1 = false ∧
      (HandleWithdraw db (some out) false).2 out.Cp =
        some { p with Balance := p.Balance - out.Amount, Nonce := p.Nonce + 1 } ∧
      (∀ a, a ≠ out.Cp → (HandleWithdraw db (some out) false).2 a = db a) ∧
      HandleWithdraw db (some out) true = (true, db) ∧
      (∀ (db2 : ProfitStore) (e : Bool), db2 out.Cp = none →
        HandleWithdraw db2 (some out) e = (true, db2)) := by
  have hmod : (p.Nonce + 1) % 18446744073709551616 = p.Nonce + 1 :=
    Nat.mod_eq_of_lt (by omega)
  refine ⟨?_, ?_, ?_, ?_, ?_⟩
  · simp [HandleWithdraw, GetProfitByAddress, hrow]
  · simp [HandleWithdraw, GetProfitByAddress, hrow, UpdateProfit, haddr, hmod]
  · intro a ha
    simp [HandleWithdraw, GetProfitByAddress, hrow, UpdateProfit, haddr, ha]
  · simp [HandleWithdraw, GetProfitByAddress, hrow]
  · intro db2 e h2
    simp [HandleWithdraw, GetProfitByAddress, h2]

/-- Witness of C19: a row with balance 100 and nonce 4, a withdrawal of 30. -/
theorem c19_withdraw_updates_balance_and_nonce_witness :
    (HandleWithdraw
        (fun a => if a = "cp" then
          some { Address := "cp", Balance := 100, Profit := 5, Penalty := 0,
                 LastTime := 10, EndTime := 20, Nonce := 4 }
          else none)
        (some ⟨"cp", 30⟩) false).1 = false ∧
      (HandleWithdraw
        (fun a => if a = "cp" then
          some { Address := "cp", Balance := 100, Profit := 5, Penalty := 0,
                 LastTime := 10, EndTime := 20, Nonce := 4 }
          else none)
        (some ⟨"cp", 30⟩) false).2 (WithdrawEvent.Cp ⟨"cp", 30⟩) =
        some { Address := "cp", Balance := 100 - 30, Profit := 5, Penalty := 0,
               LastTime := 10, EndTime := 20, Nonce := 4 + 1 } ∧
      (∀ a, a ≠ WithdrawEvent.Cp ⟨"cp", 30⟩ →
        (HandleWithdraw
          (fun a => if a = "cp" then
            some { Address := "cp", Balance := 100, Profit := 5, Penalty := 0,
                   LastTime := 10, EndTime := 20, Nonce := 4 }
            else none)
          (some ⟨"cp", 30⟩) false).2 a =
        (fun a => if a = "cp" then
            some (Profit.mk "cp" 100 5 0 10 20 4)
            else none) a) ∧
      HandleWithdraw
          (fun a => if a = "cp" then
            some { Address := "cp", Balance := 100, Profit := 5, Penalty := 0,
                   LastTime := 10, EndTime := 20, Nonce := 4 }
            else none)
          (some ⟨"cp", 30⟩) true =
        (true, fun a => if a = "cp" then
            some { Address := "cp", Balance := 100, Profit := 5, Penalty := 0,
                   LastTime := 10, EndTime := 20, Nonce := 4 }
            else none) ∧
      (∀ (db2 : ProfitStore) (e : Bool), db2 (WithdrawEvent.Cp ⟨"cp", 30⟩) = none →
        HandleWithdraw db2 (some ⟨"cp", 30⟩) e = (true, db2)) :=
  c19_withdraw_updates_balance_and_nonce
    (fun a => if a = "cp" then
      some { Address := "cp", Balance := 100, Profit := 5, Penalty := 0,
             LastTime := 10, EndTime := 20, Nonce := 4 }
      else none)
    ⟨"cp", 30⟩
    { Address := "cp", Balance := 100, Profit := 5, Penalty := 0,
      LastTime := 10, EndTime := 20, Nonce := 4 }
    (by decide) (by decide) (by decide)

/-! ## Node storage -/

/-- A decimal digit is read back from its character. -/
theorem decVal_digitChar (d : Nat) (h : d < 10) : decVal (digitChar d) = some d := by
  have key : ∀ d < 10, decVal (digitChar d) = some d := by decide
  exact key d h

/-- A digit character is no sign. -/
theorem digitChar_no_sign (d : Nat) (h : d < 10) : digitChar d ≠ '-' ∧ digitChar d ≠ '+' := by
  have key : ∀ d < 10, digitChar d ≠ '-' ∧ digitChar d ≠ '+' := by decide
  exact key d h

/-- Reading the digits of a number, most significant first, yields the
number. -/
theorem foldl_digits (L : List Nat) (hL : ∀ d ∈ L, d < 10) :
    (L.reverse.map digitChar).foldl
        (fun acc c => acc.bind fun a => (decVal c).map fun d => a * 10 + d) (some 0) =
      some (Nat.ofDigits 10 L) := by
  induction L with
  | nil => rfl
  | cons d rest ih =>
    have hd : d < 10 := hL d (List.mem_cons_self d rest)
    have hrest := ih (fun x hx => hL x (List.mem_cons_of_mem d hx))
    rw [List.reverse_cons, List.map_append, List.foldl_append, hrest]
    simp only [List.map_cons, List.map_nil, List.foldl_cons, List.foldl_nil, Option.some_bind,
      decVal_digitChar d hd, Option.map_some']
    rw [Nat.ofDigits_cons]
    congr 1
    omega

/-- The digits of a number are not empty and start with a digit character. -/
theorem natString_head (n : Nat) :
    ∃ d rest, d < 10 ∧ natString n = digitChar d :: rest := by
  unfold natString
  split
  · exact ⟨0, [], by decide, rfl⟩
  · rename_i h
    have hne : Nat.digits 10 n ≠ [] := Nat.digits_ne_nil_iff_ne_zero.mpr h
    have hne2 : (Nat.digits 10 n).reverse ≠ [] := by simpa using hne
    obtain ⟨x, t, hx⟩ := List.exists_cons_of_ne_nil hne2
    have hmem : x ∈ Nat.digits 10 n := by
      have : x ∈ (Nat.digits 10 n).reverse := by rw [hx]; exact List.mem_cons_self x t
      exact List.mem_reverse.mp this
    refine ⟨x, t.map digitChar, Nat.digits_lt_base (by decide) hmem, ?_⟩
    rw [hx]
    rfl

/-- The digits of a number parse back to it. -/
theorem parseDecimal_natString (n : Nat) : parseDecimal (natString n) = some n := by
  obtain ⟨d, rest, _, hhead⟩ := natString_head n
  have hne : natString n ≠ [] := by rw [hhead]; exact List.cons_ne_nil _ _
  unfold parseDecimal
  rw [if_neg hne]
  unfold natString
  split
  · rename_i h
    rw [h]
    decide
  · rw [foldl_digits _ (fun d hd => Nat.digits_lt_base (by decide) hd), Nat.ofDigits_digits]

/-- Parsing a string that starts with a minus sign. -/
theorem bigSetString_minus (cs : List Char) :
    bigSetString (String.mk ('-' :: cs)) = (parseDecimal cs).map fun n => -(n : Int) := by
  simp [bigSetString]

/-- Parsing a string that starts with a digit. -/
theorem bigSetString_digit (c : Char) (cs : List Char) (h1 : c ≠ '-') (h2 : c ≠ '+') :
    bigSetString (String.mk (c :: cs)) = (parseDecimal (c :: cs)).map fun n => (n : Int) := by
  simp [bigSetString, h1, h2]

/-- The decimal string of an integer parses back to it. -/
theorem bigSetString_bigString (x : Int) : bigSetString (bigString x) = some x := by
  unfold bigString
  by_cases hx : x < 0
  · rw [if_pos hx, bigSetString_minus, parseDecimal_natString]
    have : (x.natAbs : Int) = -x := Int.ofNat_natAbs_of_nonpos (le_of_lt hx)
    simp [this]
  · obtain ⟨d, rest, hd, hhead⟩ := natString_head x.natAbs
    obtain ⟨h1, h2⟩ := digitChar_no_sign d hd
    rw [if_neg hx, hhead, bigSetString_digit _ _ h1 h2, ← hhead, parseDecimal_natString]
    have : (x.natAbs : Int) = x := Int.natAbs_of_nonneg (by omega)
    simp [this]

/-- C20: for every Node whose four prices are integers of any magnitude and
sign, `NodeStoreToNode (NodeToNodeStore n)` succeeds and returns a Node equal
to `n`; the stored prices are the decimal strings of the prices. -/
theorem c20_node_store_round_trip (n : Node) :
    NodeStoreToNode (NodeToNodeStore n) = some n := by
  simp [NodeStoreToNode, NodeToNodeStore, bigSetString_bigString]

/-! ## Registration -/

/-- An accepted Provider insert: the store did not fail, the key was free, and
the table gained exactly that row. -/
theorem CreateProvider_some (db db2 : ProviderStore) (p : Provider) (e : Bool)
    (h : CreateProvider db p e = some db2) :
    e = false ∧ db p.Address = none ∧
      db2 = fun a => if a = p.Address then some p else db a := by
  unfold CreateProvider at h
  cases e with
  | true => simp at h
  | false =>
    cases hk : db p.Address with
    | some r => simp [hk] at h
    | none =>
      simp [hk] at h
      exact ⟨rfl, rfl, h.symm⟩

/-- An accepted Profit insert: the store did not fail, the key was free, and
the table gained exactly that row. -/
theorem CreateProfit_some (db db2 : ProfitStore) (p : Profit) (e : Bool)
    (h : CreateProfit db p e = some db2) :
    e = false ∧ db p.Address = none ∧
      db2 = fun a => if a = p.Address then some p else db a := by
  unfold CreateProfit at h
  cases e with
  | true => simp at h
  | false =>
    cases hk : db p.Address with
    | some r => simp [hk] at h
    | none =>
      simp [hk] at h
      exact ⟨rfl, rfl, h.symm⟩

/-- A Profit insert on a free key is rejected only when the store fails. -/
theorem CreateProfit_free (db : ProfitStore) (p : Profit) (hk : db p.Address = none) :
    CreateProfit db p false = some fun a => if a = p.Address then some p else db a := by
  simp [CreateProfit, hk]

/-- One call of `HandleRegister` keeps: every Provider row sits under its own
address, and every Profit row sits under its own address, is zeroed with
`lastTime = endTime`, and has a Provider row. -/
theorem HandleRegister_profit_has_provider (s : Stores) (c : RegisterCall)
    (hprov : ∀ a pr, s.providers a = some pr → pr.Address = a)
    (hprof : ∀ a p, s.profits a = some p →
      p.Address = a ∧ p.Balance = 0 ∧ p.Profit = 0 ∧ p.Penalty = 0 ∧
        p.LastTime = p.EndTime ∧ (s.providers a).isSome = true) :
    (∀ a pr, (HandleRegister s c).2.providers a = some pr → pr.Address = a) ∧
      (∀ a p, (HandleRegister s c).2.profits a = some p →
        p.Address = a ∧ p.Balance = 0 ∧ p.Profit = 0 ∧ p.Penalty = 0 ∧
          p.LastTime = p.EndTime ∧ ((HandleRegister s c).2.providers a).isSome = true) := by
  unfold HandleRegister
  cases hd : c.decoded with
  | none => exact ⟨hprov, hprof⟩
  | some out =>
    simp only
    cases h1 : CreateProvider s.providers
        { Address := out.Cp, Name := out.Name, IP := out.Ip, Domain := out.Domain,
          Port := out.Port } c.providerErr with
    | none => exact ⟨hprov, hprof⟩
    | some providers =>
      obtain ⟨_, _, hp2⟩ := CreateProvider_some _ _ _ _ h1
      have hprov2 : ∀ a pr, providers a = some pr → pr.Address = a := by
        intro a pr h
        rw [hp2] at h
        by_cases ha : a = out.Cp
        · simp [ha] at h
          rw [← h, ha]
        · simp [ha] at h
          exact hprov a pr h
      have hsome : ∀ a, (s.providers a).isSome = true → (providers a).isSome = true := by
        intro a h
        rw [hp2]
        by_cases ha : a = out.Cp
        · simp [ha]
        · simpa [ha] using h
      simp only
      cases h2 : CreateProfit s.profits
          { Address := out.Cp, Balance := 0, Profit := 0, Penalty := 0,
            LastTime := c.now, EndTime := c.now, Nonce := 0 } c.profitErr with
      | none =>
        refine ⟨hprov2, ?_⟩
        intro a p h
        obtain ⟨q1, q2, q3, q4, q5, q6⟩ := hprof a p h
        exact ⟨q1, q2, q3, q4, q5, hsome a q6⟩
      | some profits =>
        obtain ⟨_, _, hq2⟩ := CreateProfit_some _ _ _ _ h2
        refine ⟨hprov2, ?_⟩
        intro a p h
        simp only at h
        rw [hq2] at h
        by_cases ha : a = out.Cp
        · simp [ha] at h
          subst h
          refine ⟨ha.symm, rfl, rfl, rfl, rfl, ?_⟩
          simp only
          rw [hp2]
          simp [ha]
        · simp [ha] at h
          obtain ⟨q1, q2, q3, q4, q5, q6⟩ := hprof a p h
          exact ⟨q1, q2, q3, q4, q5, hsome a q6⟩

/-- One call of `HandleRegister` whose Profit insert the store does not fail
keeps: every address with a Provider row has a Profit row. -/
theorem HandleRegister_provider_has_profit (s : Stores) (c : RegisterCall)
    (herr : c.profitErr = false)
    (hprof : ∀ a, (s.profits a).isSome = true → (s.providers a).isSome = true)
    (hpair : ∀ a, (s.providers a).isSome = true → (s.profits a).isSome = true) :
    ∀ a, ((HandleRegister s c).2.providers a).isSome = true →
      ((HandleRegister s c).2.profits a).isSome = true := by
  unfold HandleRegister
  cases hd : c.decoded with
  | none => exact hpair
  | some out =>
    simp only
    cases h1 : CreateProvider s.providers
        { Address := out.Cp, Name := out.Name, IP := out.Ip, Domain := out.Domain,
          Port := out.Port } c.providerErr with
    | none => exact hpair
    | some providers =>
      obtain ⟨_, hfree, hp2⟩ := CreateProvider_some _ _ _ _ h1
      have hnone : s.profits out.Cp = none := by
        cases hq : s.profits out.Cp with
        | none => rfl
        | some q =>
          have := hprof out.Cp (by simp [hq])
          simp only at hfree
          simp [hfree] at this
      have h2 := CreateProfit_free s.profits
        { Address := out.Cp, Balance := 0, Profit := 0, Penalty := 0,
          LastTime := c.now, EndTime := c.now, Nonce := 0 } hnone
      simp only [herr, h2]
      intro a h
      rw [hp2] at h
      by_cases ha : a = out.Cp
      · simp [ha]
      · simp only [ha, if_false] at h ⊢
        exact hpair a h

/-- Along any sequence of calls from a state where they hold, Profit rows stay
zeroed under their address with a Provider row; and Provider rows keep a
Profit row as long as the store fails no Profit insert. -/
theorem runRegisters_invariant (calls : List RegisterCall) :
    ∀ s : Stores,
      (∀ a pr, s.providers a = some pr → pr.Address = a) →
      (∀ a p, s.profits a = some p →
        p.Address = a ∧ p.Balance = 0 ∧ p.Profit = 0 ∧ p.Penalty = 0 ∧
          p.LastTime = p.EndTime ∧ (s.providers a).isSome = true) →
      (∀ a pr, (runRegisters s calls).providers a = some pr → pr.Address = a) ∧
      (∀ a p, (runRegisters s calls).profits a = some p →
        p.Address = a ∧ p.Balance = 0 ∧ p.Profit = 0 ∧ p.Penalty = 0 ∧
          p.LastTime = p.EndTime ∧ ((runRegisters s calls).providers a).isSome = true) ∧
      ((∀ c ∈ calls, c.profitErr = false) →
        (∀ a, (s.providers a).isSome = true → (s.profits a).isSome = true) →
        ∀ a, ((runRegisters s calls).providers a).isSome = true →
          ((runRegisters s calls).profits a).isSome = true) := by
  induction calls with
  | nil =>
    intro s hprov hprof
    exact ⟨hprov, hprof, fun _ hpair => hpair⟩
  | cons c rest ih =>
    intro s hprov hprof
    obtain ⟨h1, h2⟩ := HandleRegister_profit_has_provider s c hprov hprof
    obtain ⟨r1, r2, r3⟩ := ih (HandleRegister s c).2 h1 h2
    refine ⟨r1, r2, ?_⟩
    intro herr hpair
    have hstep := HandleRegister_provider_has_profit s c
      (herr c (List.mem_cons_self c rest)) (fun a h => by
        obtain ⟨q, hq⟩ := Option.isSome_iff_exists.mp h
        exact (hprof a q hq).2.2.2.2.2) hpair
    exact r3 (fun x hx => herr x (List.mem_cons_of_mem c hx)) hstep

/-- C21 as stated fails: one `Register` whose Provider insert is accepted and
whose Profit insert the store rejects leaves a Provider row for the address
and no Profit row. -/
theorem c21_counterexample_profit_insert_rejected :
    (runRegisters emptyStores
        [⟨some ⟨"cp", "name", "ip", "domain", "port"⟩, 100, false, true⟩]).providers "cp" =
        some ⟨"cp", "name", "ip", "domain", "port"⟩ ∧
      (runRegisters emptyStores
        [⟨some ⟨"cp", "name", "ip", "domain", "port"⟩, 100, false, true⟩]).profits "cp" =
        none := by
  decide

/-- C21, amended: starting from an empty store, after any sequence of
`HandleRegister` calls (any addresses, repeated ones included, each insert
possibly rejected), every Profit row sits under its own address, has
balance = profit = penalty = 0 and `lastTime = endTime`, and its address has a
Provider row with the same address; and when the store fails no Profit insert,
every address that has a Provider row also has a Profit row. -/
theorem c21_register_rows_paired (calls : List RegisterCall) :
    (∀ a p, (runRegisters emptyStores calls).profits a = some p →
        p.Address = a ∧ p.Balance = 0 ∧ p.Profit = 0 ∧ p.Penalty = 0 ∧
          p.LastTime = p.EndTime ∧
          ∃ pr, (runRegisters emptyStores calls).providers a = some pr ∧ pr.Address = a) ∧
      ((∀ c ∈ calls, c.profitErr = false) →
        ∀ a pr, (runRegisters emptyStores calls).providers a = some pr →
          pr.Address = a ∧
          ∃ p, (runRegisters emptyStores calls).profits a = some p ∧ p.Address = a) := by
  have h := runRegisters_invariant calls emptyStores
    (by intro a pr h; simp [emptyStores] at h)
    (by intro a p h; simp [emptyStores] at h)
  obtain ⟨h1, h2, h3⟩ := h
  refine ⟨?_, ?_⟩
  · intro a p hp
    obtain ⟨q1, q2, q3, q4, q5, q6⟩ := h2 a p hp
    obtain ⟨pr, hpr⟩ := Option.isSome_iff_exists.mp q6
    exact ⟨q1, q2, q3, q4, q5, pr, hpr, h1 a pr hpr⟩
  · intro herr a pr hpr
    have hs := h3 herr (by intro a h; simp [emptyStores] at h) a (by simp [hpr])
    obtain ⟨p, hp⟩ := Option.isSome_iff_exists.mp hs
    exact ⟨h1 a pr hpr, p, hp, (h2 a p hp).1⟩

/-! ## Cursor after a batch without failure -/

/-- A processed log below block `2^63 - 1` moves a non-negative `int64` cursor
to the larger of the cursor and the block number plus one. -/
theorem advance_spec (c : Int) (e : Log) (h0 : 0 ≤ c) (h1 : c < 9223372036854775808)
    (hb : e.BlockNumber < 9223372036854775807) :
    c ≤ advance c e ∧ (e.BlockNumber : Int) + 1 ≤ advance c e ∧
      advance c e < 9223372036854775808 ∧
      (advance c e = c ∨ advance c e = (e.BlockNumber : Int) + 1) := by
  unfold advance bigUint64 wrap64
  split <;> omega

/-- A skipped log in front of a batch changes nothing of what holds for the
rest. -/
theorem cursorIsMax_skip (cursor start : Int) (e : Log) (rest : List Log)
    (hnd : isDispatched e = false) (h : cursorIsMax cursor start rest) :
    cursorIsMax cursor start (e :: rest) := by
  obtain ⟨i2, i4, i5⟩ := h
  refine ⟨i2, ?_, ?_⟩
  · intro x hx hdx
    rcases List.mem_cons.mp hx with h | h
    · rw [h, hnd] at hdx; cases hdx
    · exact i4 x h hdx
  · rcases i5 with h | ⟨x, hx, hdx, hxe⟩
    · exact Or.inl h
    · exact Or.inr ⟨x, List.mem_cons_of_mem e hx, hdx, hxe⟩

/-- A handled log in front of a batch: the maximum from the advanced cursor
over the rest is the maximum from the start over the whole batch. -/
theorem cursorIsMax_step (cursor start : Int) (e : Log) (rest : List Log)
    (h0 : 0 ≤ start) (h1 : start < 9223372036854775808)
    (hb : e.BlockNumber < 9223372036854775807) (hdisp : isDispatched e = true)
    (h : cursorIsMax cursor (advance start e) rest) :
    cursorIsMax cursor start (e :: rest) := by
  obtain ⟨a1, a2, _, a4⟩ := advance_spec start e h0 h1 hb
  obtain ⟨i2, i4, i5⟩ := h
  refine ⟨le_trans a1 i2, ?_, ?_⟩
  · intro x hx hdx
    rcases List.mem_cons.mp hx with h | h
    · rw [h]; exact le_trans a2 i2
    · exact i4 x h hdx
  · rcases i5 with h | ⟨x, hx, hdx, hxe⟩
    · rcases a4 with h4 | h4
      · exact Or.inl (h.trans h4)
      · exact Or.inr ⟨e, List.mem_cons_self e rest, hdisp, h.trans h4⟩
    · exact Or.inr ⟨x, List.mem_cons_of_mem e hx, hdx, hxe⟩

/-- The loop on a batch in which nothing fails: it runs to the end, handles
exactly the dispatched logs, and leaves the cursor at the maximum of its start
and one past every dispatched block. -/
theorem dumpLoop_without_failure (events : List Log) :
    ∀ (c : Int) (handled : List Log), 0 ≤ c → c < 9223372036854775808 →
      (∀ e ∈ events, e.BlockNumber < 9223372036854775807) →
      (∀ e ∈ events, isDispatched e = true →
        e.handlerErr = false ∧ e.txErr = false ∧ e.senderErr = false) →
      (dumpLoop c handled events).exit = .finished ∧
        (dumpLoop c handled events).blockNumber < 9223372036854775808 ∧
        cursorIsMax (dumpLoop c handled events).blockNumber c events ∧
        (dumpLoop c handled events).handled = handled ++ events.filter isDispatched := by
  induction events with
  | nil =>
    intro c handled _ h1 _ _
    refine ⟨rfl, h1, ⟨le_refl c, ?_, Or.inl rfl⟩, by simp [dumpLoop]⟩
    intro e he
    cases he
  | cons e rest ih =>
    intro c handled h0 h1 hb hok
    have hbe := hb e (List.mem_cons_self e rest)
    have hbr : ∀ x ∈ rest, x.BlockNumber < 9223372036854775807 :=
      fun x hx => hb x (List.mem_cons_of_mem e hx)
    have hokr : ∀ x ∈ rest, isDispatched x = true →
        x.handlerErr = false ∧ x.txErr = false ∧ x.senderErr = false :=
      fun x hx => hok x (List.mem_cons_of_mem e hx)
    have skip : isDispatched e = false →
        dumpLoop c handled (e :: rest) = dumpLoop c handled rest →
        (dumpLoop c handled (e :: rest)).exit = .finished ∧
          (dumpLoop c handled (e :: rest)).blockNumber < 9223372036854775808 ∧
          cursorIsMax (dumpLoop c handled (e :: rest)).blockNumber c (e :: rest) ∧
          (dumpLoop c handled (e :: rest)).handled =
            handled ++ (e :: rest).filter isDispatched := by
      intro hnd heq
      obtain ⟨i1, i3, i4, i6⟩ := ih c handled h0 h1 hbr hokr
      rw [heq]
      refine ⟨i1, i3, cursorIsMax_skip _ _ e rest hnd i4, ?_⟩
      rw [i6, List.filter_cons_of_neg (by simp [hnd])]
    have step : isDispatched e = true →
        dumpLoop c handled (e :: rest) = dumpLoop (advance c e) (handled ++ [e]) rest →
        (dumpLoop c handled (e :: rest)).exit = .finished ∧
          (dumpLoop c handled (e :: rest)).blockNumber < 9223372036854775808 ∧
          cursorIsMax (dumpLoop c handled (e :: rest)).blockNumber c (e :: rest) ∧
          (dumpLoop c handled (e :: rest)).handled =
            handled ++ (e :: rest).filter isDispatched := by
      intro hdisp heq
      obtain ⟨a1, _, a3, _⟩ := advance_spec c e h0 h1 hbe
      obtain ⟨i1, i3, i4, i6⟩ :=
        ih (advance c e) (handled ++ [e]) (le_trans h0 a1) a3 hbr hokr
      rw [heq]
      refine ⟨i1, i3, cursorIsMax_step _ _ e rest h0 h1 hbe hdisp i4, ?_⟩
      rw [i6, List.filter_cons_of_pos hdisp]
      simp
    cases hn : e.name with
    | none =>
      exact skip (by simp [isDispatched, hn]) (by rw [dumpLoop]; simp [hn])
    | some nm =>
      cases nm with
      | Other => exact skip (by simp [isDispatched, hn]) (by rw [dumpLoop]; simp [hn])
      | Register =>
        have hd : isDispatched e = true := by simp [isDispatched, hn]
        obtain ⟨e1, _, _⟩ := hok e (List.mem_cons_self e rest) hd
        exact step hd (by rw [dumpLoop]; simp [hn, e1])
      | AddNode =>
        have hd : isDispatched e = true := by simp [isDispatched, hn]
        obtain ⟨e1, _, _⟩ := hok e (List.mem_cons_self e rest) hd
        exact step hd (by rw [dumpLoop]; simp [hn, e1])
      | CreateOrder =>
        have hd : isDispatched e = true := by simp [isDispatched, hn]
        obtain ⟨_, e2, e3⟩ := hok e (List.mem_cons_self e rest) hd
        exact step hd (by rw [dumpLoop]; simp [hn, e2, e3])

/-- Logs whose signature is unknown can be removed from a batch without
changing what the loop does. -/
theorem dumpLoop_skips_unknown (events : List Log) :
    ∀ (c : Int) (handled : List Log),
      dumpLoop c handled events =
        dumpLoop c handled (events.filter fun e => e.name.isSome) := by
  induction events with
  | nil => intro c handled; rfl
  | cons e rest ih =>
    intro c handled
    cases hn : e.name with
    | none =>
      rw [List.filter_cons_of_neg (by simp [hn]), ← ih]
      rw [dumpLoop]
      simp [hn]
    | some nm =>
      rw [List.filter_cons_of_pos (by simp [hn])]
      cases nm <;> (rw [dumpLoop, dumpLoop]; simp only [hn, ih])

/-- C22 as stated fails.  First, a processed `Register` log of block
`2^63 - 1` leaves the cursor at `-2^63`, not at `max(0, 2^63)`.  Second, in a
batch where no handler fails, a `CreateOrder` log of block 5 whose sender
cannot be recovered ends the call before the `Register` log of block 6 is
reached: the cursor stays 0, not `max(0, 7)`. -/
theorem c22_counterexample_wrap_and_sender :
    (DumpGRID (NewGRIDDumper none false)
        ⟨some [⟨some .Register, 9223372036854775807, false, false, false⟩],
          false⟩).dumper.blockNumber = -9223372036854775808 ∧
      max (0 : Int) (9223372036854775807 + 1) = 9223372036854775808 ∧
      DumpGRID (NewGRIDDumper none false)
          ⟨some [⟨some .CreateOrder, 5, false, false, true⟩,
                 ⟨some .Register, 6, false, false, false⟩], false⟩ =
        ⟨⟨0, none⟩, [], .returned⟩ ∧
      max (0 : Int) (6 + 1) = 7 := by
  decide

/-- C22, amended: for a cursor that is a non-negative `int64` and every log
batch with block numbers below `2^63 - 1` in which no handler fails and no
`CreateOrder` transaction or sender lookup fails, `DumpGRID` runs to the end,
handles exactly the logs of a dispatched kind, and the cursor afterwards is
the maximum of the cursor at the start and one past the block number of every
such log; and for every batch at all, removing the logs whose signature is
unknown changes nothing of the result. -/
theorem c22_cursor_is_max_without_failure (d : Dumper) (events : List Log) (setErr : Bool)
    (h0 : 0 ≤ d.blockNumber) (h1 : d.blockNumber < 9223372036854775808)
    (hb : ∀ e ∈ events, e.BlockNumber < 9223372036854775807)
    (hok : ∀ e ∈ events, isDispatched e = true →
      e.handlerErr = false ∧ e.txErr = false ∧ e.senderErr = false) :
    (DumpGRID d ⟨some events, setErr⟩).exit = .finished ∧
      cursorIsMax (DumpGRID d ⟨some events, setErr⟩).dumper.blockNumber d.blockNumber events ∧
      (DumpGRID d ⟨some events, setErr⟩).handled = events.filter isDispatched ∧
      (∀ (d2 : Dumper) (batch : List Log) (s : Bool),
        DumpGRID d2 ⟨some batch, s⟩ =
          DumpGRID d2 ⟨some (batch.filter fun e => e.name.isSome), s⟩) := by
  obtain ⟨i1, _, i3, i4⟩ := dumpLoop_without_failure events d.blockNumber [] h0 h1 hb hok
  have hres : (DumpGRID d ⟨some events, setErr⟩).exit = (dumpLoop d.blockNumber [] events).exit ∧
      (DumpGRID d ⟨some events, setErr⟩).dumper.blockNumber =
        (dumpLoop d.blockNumber [] events).blockNumber ∧
      (DumpGRID d ⟨some events, setErr⟩).handled =
        (dumpLoop d.blockNumber [] events).handled := by
    unfold DumpGRID
    simp only [i1]
    split <;> exact ⟨rfl, rfl, rfl⟩
  refine ⟨by rw [hres.1, i1], by rw [hres.2.1]; exact i3, by rw [hres.2.2, i4]; rfl, ?_⟩
  intro d2 batch s
  unfold DumpGRID
  simp only
  rw [← dumpLoop_skips_unknown batch d2.blockNumber []]

/-- Witness of C22: cursor 3, a batch with an unknown log of block 9, a
`Register` of block 5, an undispatched event of block 8 and an `AddNode` of
block 4. -/
theorem c22_cursor_is_max_without_failure_witness :
    (DumpGRID ⟨3, some 3⟩
        ⟨some [⟨none, 9, false, false, false⟩, ⟨some .Register, 5, false, false, false⟩,
               ⟨some .Other, 8, false, false, false⟩,
               ⟨some .AddNode, 4, false, false, false⟩], false⟩).exit = .finished ∧
      cursorIsMax
        (DumpGRID ⟨3, some 3⟩
          ⟨some [⟨none, 9, false, false, false⟩, ⟨some .Register, 5, false, false, false⟩,
                 ⟨some .Other, 8, false, false, false⟩,
                 ⟨some .AddNode, 4, false, false, false⟩], false⟩).dumper.blockNumber
        (Dumper.blockNumber ⟨3, some 3⟩)
        [⟨none, 9, false, false, false⟩, ⟨some .Register, 5, false, false, false⟩,
         ⟨some .Other, 8, false, false, false⟩, ⟨some .AddNode, 4, false, false, false⟩] ∧
      (DumpGRID ⟨3, some 3⟩
        ⟨some [⟨none, 9, false, false, false⟩, ⟨some .Register, 5, false, false, false⟩,
               ⟨some .Other, 8, false, false, false⟩,
               ⟨some .AddNode, 4, false, false, false⟩], false⟩).handled =
        List.filter isDispatched
          [⟨none, 9, false, false, false⟩, ⟨some .Register, 5, false, false, false⟩,
           ⟨some .Other, 8, false, false, false⟩, ⟨some .AddNode, 4, false, false, false⟩] ∧
      (∀ (d2 : Dumper) (batch : List Log) (s : Bool),
        DumpGRID d2 ⟨some batch, s⟩ =
          DumpGRID d2 ⟨some (batch.filter fun e => e.name.isSome), s⟩) :=
  c22_cursor_is_max_without_failure ⟨3, some 3⟩
    [⟨none, 9, false, false, false⟩, ⟨some .Register, 5, false, false, false⟩,
     ⟨some .Other, 8, false, false, false⟩, ⟨some .AddNode, 4, false, false, false⟩] false
    (by decide) (by decide) (by decide) (by decide)

/-! ## Settlement: conservation, order, division -/

/-- On `int64` inputs the reward is always computed: the divisor of the last
branch is never zero. -/
theorem calcReward_total (last : Int) (p : Profit) (hl : isInt64 last)
    (h1 : isInt64 p.LastTime) (h2 : isInt64 p.EndTime) :
    ∃ r, calcReward last p = some r := by
  unfold isInt64 at hl h1 h2
  unfold calcReward
  split
  · exact ⟨0, rfl⟩
  · split
    · exact ⟨p.Profit, rfl⟩
    · split
      · exact ⟨0, rfl⟩
      · have hne : ¬ wrap64 (p.EndTime - p.LastTime) = 0 := by
          unfold wrap64; omega
        simp [div64, hne]

/-- C23: for every row with `int64` times, every `int64` `v.last` and either
proof outcome, one settlement step returns a row, leaves the sum
`balance + profit + penalty` unchanged, and leaves `endTime`, `nonce` and the
address unchanged. -/
theorem c23_settlement_conserves_value (last : Int) (result : Bool) (p : Profit)
    (hl : isInt64 last) (h1 : isInt64 p.LastTime) (h2 : isInt64 p.EndTime) :
    ∃ q, AddPenaltyStep last result p = some q ∧
      q.Balance + q.Profit + q.Penalty = p.Balance + p.Profit + p.Penalty ∧
      q.EndTime = p.EndTime ∧ q.Nonce = p.Nonce ∧ q.Address = p.Address := by
  obtain ⟨r, hr⟩ := calcReward_total last p hl h1 h2
  refine ⟨applySettlement last result p r, by simp [AddPenaltyStep, hr], ?_, rfl, rfl, rfl⟩
  simp only [applySettlement]
  omega

/-- Witness of C23: schedule `[100, 200)`, settled at 200 after a failed
proof. -/
theorem c23_settlement_conserves_value_witness :
    ∃ q, AddPenaltyStep 200 false
        { Address := "cp", Balance := 7, Profit := 5000, Penalty := 3,
          LastTime := 100, EndTime := 200, Nonce := 4 } = some q ∧
      q.Balance + q.Profit + q.Penalty = 7 + 5000 + 3 ∧
      q.EndTime = 200 ∧ q.Nonce = 4 ∧ q.Address = "cp" :=
  c23_settlement_conserves_value 200 false
    { Address := "cp", Balance := 7, Profit := 5000, Penalty := 3,
      LastTime := 100, EndTime := 200, Nonce := 4 } (by decide) (by decide) (by decide)

/-- After a settlement step at `last` a further step at `last` has reward 0. -/
theorem calcReward_after_step (last : Int) (result : Bool) (p : Profit) (r : Int) :
    calcReward last (applySettlement last result p r) = some 0 := by
  simp [calcReward, applySettlement]

/-- C24: for every row with `int64` times, every `int64` `v.last` and any two
proof outcomes `r1`, `r2`, the settlement step with `r1` then `r2` and the one
with `r2` then `r1` both return, yield the same row, the second step's reward
is 0 in either order, and the balance is credited the first step's reward
once. -/
theorem c24_settlement_order_independent (last : Int) (r1 r2 : Bool) (p : Profit)
    (hl : isInt64 last) (h1 : isInt64 p.LastTime) (h2 : isInt64 p.EndTime) :
    ∃ a b q reward, AddPenaltyStep last r1 p = some a ∧ AddPenaltyStep last r2 a = some q ∧
      AddPenaltyStep last r2 p = some b ∧ AddPenaltyStep last r1 b = some q ∧
      calcReward last p = some reward ∧
      calcReward last a = some 0 ∧ calcReward last b = some 0 ∧
      q.Balance = p.Balance + reward := by
  obtain ⟨r, hr⟩ := calcReward_total last p hl h1 h2
  have ha := calcReward_after_step last r1 p r
  have hb := calcReward_after_step last r2 p r
  refine ⟨applySettlement last r1 p r, applySettlement last r2 p r,
    applySettlement last r2 (applySettlement last r1 p r) 0, r,
    by simp [AddPenaltyStep, hr], by simp [AddPenaltyStep, ha],
    by simp [AddPenaltyStep, hr], ?_, hr, ha, hb, ?_⟩
  · simp only [AddPenaltyStep, hb, Option.map_some', Option.some.injEq]
    cases r1 <;> cases r2 <;> simp [applySettlement, calcPenalty]
  · simp [applySettlement]

/-- Witness of C24: schedule `[100, 200)`, settled at 200, one node failed and
one succeeded. -/
theorem c24_settlement_order_independent_witness :
    ∃ a b q reward, AddPenaltyStep 200 false
        { Address := "cp", Balance := 7, Profit := 5000, Penalty := 3,
          LastTime := 100, EndTime := 200, Nonce := 4 } = some a ∧
      AddPenaltyStep 200 true a = some q ∧
      AddPenaltyStep 200 true
        { Address := "cp", Balance := 7, Profit := 5000, Penalty := 3,
          LastTime := 100, EndTime := 200, Nonce := 4 } = some b ∧
      AddPenaltyStep 200 false b = some q ∧
      calcReward 200
        { Address := "cp", Balance := 7, Profit := 5000, Penalty := 3,
          LastTime := 100, EndTime := 200, Nonce := 4 } = some reward ∧
      calcReward 200 a = some 0 ∧ calcReward 200 b = some 0 ∧
      q.Balance = 7 + reward :=
  c24_settlement_order_independent 200 false true
    { Address := "cp", Balance := 7, Profit := 5000, Penalty := 3,
      LastTime := 100, EndTime := 200, Nonce := 4 } (by decide) (by decide) (by decide)

/-- C25: for every row with `int64` times and every `int64` `v.last`, the
reward is always computed (the division never panics); whenever the last
branch is reached `endTime - lastTime > 0` and the `int64` divisor is not
zero; and the branch `lastTime >= endTime` before it is never taken, so the
reward is the one of the three other branches. -/
theorem c25_no_division_by_zero (last : Int) (p : Profit)
    (hl : isInt64 last) (h1 : isInt64 p.LastTime) (h2 : isInt64 p.EndTime) :
    (∃ r, calcReward last p = some r) ∧
      (¬ last ≤ p.LastTime → ¬ last ≥ p.EndTime →
        0 < p.EndTime - p.LastTime ∧ wrap64 (p.EndTime - p.LastTime) ≠ 0 ∧
        ∃ q, div64 (wrap64 (last - p.LastTime)) (wrap64 (p.EndTime - p.LastTime)) = some q) ∧
      ¬ (¬ last ≤ p.LastTime ∧ ¬ last ≥ p.EndTime ∧ p.LastTime ≥ p.EndTime) ∧
      calcReward last p =
        (if last ≤ p.LastTime then some 0
        else if last ≥ p.EndTime then some p.Profit
        else (div64 (wrap64 (last - p.LastTime)) (wrap64 (p.EndTime - p.LastTime))).map
          (fun q => p.Profit * q)) := by
  refine ⟨calcReward_total last p hl h1 h2, ?_, by omega, ?_⟩
  · intro ha hb
    unfold isInt64 at hl h1 h2
    have hne : ¬ wrap64 (p.EndTime - p.LastTime) = 0 := by
      unfold wrap64; omega
    exact ⟨by omega, hne, by simp [div64, hne]⟩
  · unfold calcReward
    split
    · rfl
    · split
      · rfl
      · rename_i ha hb
        rw [if_neg (by omega)]

/-- Witness of C25: schedule `[100, 200)` settled at 150. -/
theorem c25_no_division_by_zero_witness :
    (∃ r, calcReward 150
        { Address := "cp", Balance := 7, Profit := 5000, Penalty := 3,
          LastTime := 100, EndTime := 200, Nonce := 4 } = some r) ∧
      (¬ (150 : Int) ≤ 100 → ¬ (150 : Int) ≥ 200 →
        (0 : Int) < 200 - 100 ∧ wrap64 (200 - 100) ≠ 0 ∧
        ∃ q, div64 (wrap64 (150 - 100)) (wrap64 (200 - 100)) = some q) ∧
      ¬ (¬ (150 : Int) ≤ 100 ∧ ¬ (150 : Int) ≥ 200 ∧ (100 : Int) ≥ 200) ∧
      calcReward 150
        { Address := "cp", Balance := 7, Profit := 5000, Penalty := 3,
          LastTime := 100, EndTime := 200, Nonce := 4 } =
        (if (150 : Int) ≤ 100 then some 0
        else if (150 : Int) ≥ 200 then some 5000
        else (div64 (wrap64 (150 - 100)) (wrap64 (200 - 100))).map
          (fun q => 5000 * q)) :=
  c25_no_division_by_zero 150
    { Address := "cp", Balance := 7, Profit := 5000, Penalty := 3,
      LastTime := 100, EndTime := 200, Nonce := 4 } (by decide) (by decide) (by decide)

end Grid
